import Mathlib

/-!
The package go-astar: the eight-direction grid world (eightDirPath.go)

A shallow embedding of the terrain tables, the tile operations and the sparse
world of `eightDirPath.go`, followed by the properties established about them.

Modelling conventions
* Go `int` is the 64-bit integer.  Coordinates are values of `Int`; every
  subtraction, negation and addition made by `PathNeighborCost` and
  `PathEstimatedCost` wraps at 64 bits (`wrapInt`).  The offset additions of
  `PathNeighbors` are exact: probed coordinates are taken to lie within the
  range of `int`.
* `float64` costs are exact rationals, the literal `1.414` being `1414/1000`;
  the conversion `float64(n)` of an integer is `n` itself, which is what the
  code computes for `|n| ≤ 2^53`.
* A Go map is modelled by its lookup function (`GoMap`): `none` stands for an
  absent key and, for pointer or map values, also for a stored `nil`, which the
  code never tells apart from absence.
* An `EDWorld` value is a Go map, hence a reference.  The contents of every
  world live in a `Heap`; an `EDWorld` whose reference is not allocated in the
  heap is the `nil` map (reads give the zero value, writes fault).
* `*EDTile` values are immutable records once built (no code of the file
  writes a field of an existing tile); the `nil` pointer is `none`.
* A Go run-time fault (a write into a `nil` map) is the result `none` of a
  state-changing operation.
* Tiles are compared by value: a tile object stored under two keys of a world
  is one value found at both coordinates.
* `Path` and the interface `Pather` belong to the search file of the package,
  which is not part of this development; they appear as a contract and as a
  sum of dynamic types.
-/

namespace Astar

/-! ## Go maps -/

/-- Go map given by its lookup function; `none` is an absent key. -/
abbrev GoMap (κ ν : Type) := κ → Option ν

namespace GoMap

/-- The empty map literal. -/
def empty {κ ν : Type} : GoMap κ ν := fun _ => none

/-- The assignment `m[k] = v`. -/
def set {κ ν : Type} [DecidableEq κ] (m : GoMap κ ν) (k : κ) (v : ν) : GoMap κ ν :=
  fun k' => if k' = k then some v else m k'

/-- A map literal with the listed entries (the keys of a Go literal are distinct). -/
def ofList {κ ν : Type} [DecidableEq κ] (l : List (κ × ν)) : GoMap κ ν :=
  fun k => (l.find? (fun e => decide (e.1 = k))).map Prod.snd

end GoMap

/-! ## Machine integers -/

/-- The value a 64-bit two's complement `int` holds for the exact result `i`. -/
def wrapInt (i : Int) : Int := (i + 2 ^ 63) % 2 ^ 64 - 2 ^ 63

/-- What the idiom `d := x - y; if d < 0 { d = -d }` leaves in `d`, for the
exact difference `d` of the operands: the absolute value, unless an operation
wraps. -/
def wrapAbs (d : Int) : Int :=
  if wrapInt d < 0 then wrapInt (-wrapInt d) else wrapInt d

/-! ## Terrain kinds and the three tables -/

/-- Kind constant 0 of the iota block: a plain tile. -/
def EDKindPlain : Int := 0
/-- Kind constant 1: a river tile. -/
def EDKindRiver : Int := 1
/-- Kind constant 2: a mountain tile. -/
def EDKindMountain : Int := 2
/-- Kind constant 3: a tile which blocks movement. -/
def EDKindBlocker : Int := 3
/-- Kind constant 4: the marker of a solved route. -/
def EDKindPath : Int := 4

/-- Go `rune`: an integer code point. -/
abbrev rune := Int

/-- The rune denoted by a character literal. -/
def runeLit (c : Char) : rune := (c.toNat : Int)

/-- Table `EDKindRunes`: tile kinds to output runes. -/
def EDKindRunes : GoMap Int rune :=
  GoMap.ofList [
    (EDKindPlain, runeLit '.'),
    (EDKindRiver, runeLit '~'),
    (EDKindMountain, runeLit 'M'),
    (EDKindBlocker, runeLit 'X'),
    (EDKindPath, runeLit '●')]

/-- Table `EDRuneKinds`: input runes to tile kinds. -/
def EDRuneKinds : GoMap rune Int :=
  GoMap.ofList [
    (runeLit '.', EDKindPlain),
    (runeLit '~', EDKindRiver),
    (runeLit 'M', EDKindMountain),
    (runeLit 'X', EDKindBlocker)]

/-- Table `EDKindCosts`: tile kinds to movement costs. -/
def EDKindCosts : GoMap Int ℚ :=
  GoMap.ofList [
    (EDKindPlain, 1),
    (EDKindRiver, 2),
    (EDKindMountain, 3)]

/-! ## Tiles, worlds and the heap -/

/-- An `EDWorld` value: the reference of a `map[int]map[int]*EDTile`. -/
structure EDWorld where
  /-- Address of the map in the heap. -/
  ref : Nat
deriving DecidableEq, Repr

/-- The struct `EDTile`. -/
structure EDTile where
  /-- Kind of the tile (any `int`). -/
  Kind : Int
  /-- First coordinate. -/
  X : Int
  /-- Second coordinate. -/
  Y : Int
  /-- Reference to the world the tile belongs to. -/
  W : EDWorld
deriving DecidableEq, Repr

/-- Contents of one world: `map[int]map[int]*EDTile`. -/
abbrev Grid := GoMap Int (GoMap Int EDTile)

/-- Memory: the contents of every allocated world, by address. -/
abbrev Heap := List Grid

/-- Contents of the map a world value refers to; `none` for the `nil` map. -/
def Heap.grid (h : Heap) (w : EDWorld) : Option Grid := h[w.ref]?

/-- Function `NewEDWorld`: allocates an empty map and returns its reference. -/
def NewEDWorld (h : Heap) : EDWorld × Heap :=
  (⟨h.length⟩, h ++ [GoMap.empty])

namespace EDWorld

/-- Method `EDWorld.EDTile`: the tile at the given coordinates, `none` for `nil`.
Reading a `nil` map gives the zero value, so `w[x] == nil` there as well. -/
def EDTile (w : EDWorld) (h : Heap) (x y : Int) : Option Astar.EDTile :=
  match h.grid w with
  | none => none
  | some g =>
    match g x with
    | none => none
    | some row => row y

/-- Method `EDWorld.SetTile`; `none` is the fault of a write into a `nil` map. -/
def SetTile (w : EDWorld) (h : Heap) (bBloc : Bool) (x y : Int) : Option Heap :=
  let k := if bBloc then EDKindBlocker else EDKindPlain
  let t : Astar.EDTile := { X := x, Y := y, W := w, Kind := k }
  match h.grid w with
  | none => none
  | some g =>
    let g1 : Grid := if (g x).isNone then GoMap.set g x GoMap.empty else g
    match g1 x with
    | none => none
    | some row => some (h.set w.ref (GoMap.set g1 x (GoMap.set row y t)))

end EDWorld

namespace EDTile

/-- The offsets that `PathNeighbors` ranges over, in source order. -/
def pathOffsets : List (Int × Int) :=
  [(-1, 0), (1, 0), (0, -1), (0, 1), (1, 1), (-1, 1), (1, -1), (-1, 1)]

/-- Body of the loop of `PathNeighbors` for one offset. -/
def pathNeighborsStep (t : EDTile) (h : Heap) (neighbors : List EDTile)
    (offset : Int × Int) : List EDTile :=
  match t.W.EDTile h (t.X + offset.1) (t.Y + offset.2) with
  | none => neighbors
  | some n => if n.Kind ≠ EDKindBlocker then neighbors ++ [n] else neighbors

/-- Method `EDTile.PathNeighbors`. -/
def PathNeighbors (t : EDTile) (h : Heap) : List EDTile :=
  pathOffsets.foldl (pathNeighborsStep t h) []

/-- Method `EDTile.BSamePoint`. -/
def BSamePoint (t toT : EDTile) : Bool :=
  decide (t.X = toT.X) && decide (t.Y = toT.Y)

/-- Method `EDTile.PathNeighborCost`; an absent kind reads as the zero cost, and
the integer operations wrap. -/
def PathNeighborCost (t toT : EDTile) : ℚ :=
  let cost : ℚ := (EDKindCosts toT.Kind).getD 0
  let xdis := wrapInt (t.X - toT.X)
  let xdis := if xdis < 0 then wrapInt (-xdis) else xdis
  let ydis := wrapInt (t.Y - toT.Y)
  let ydis := if ydis < 0 then wrapInt (-ydis) else ydis
  if xdis = 1 ∧ ydis = 1 then cost * (1414 / 1000) else cost

/-- Method `EDTile.PathEstimatedCost`; the integer operations wrap. -/
def PathEstimatedCost (t toT : EDTile) : ℚ :=
  let absX := wrapInt (toT.X - t.X)
  let absX := if absX < 0 then wrapInt (-absX) else absX
  let absY := wrapInt (toT.Y - t.Y)
  let absY := if absY < 0 then wrapInt (-absY) else absY
  ((wrapInt (absX + absY) : Int) : ℚ)

end EDTile

/-! ## Callers used to state the properties -/

namespace EDWorld

/-- A caller performing the listed `SetTile` calls on `w`, in order; each call is
`(bBloc, x, y)`.  A fault of one call is a fault of the whole run. -/
def SetTiles (w : EDWorld) (h : Heap) : List (Bool × Int × Int) → Option Heap
  | [] => some h
  | c :: cs => (w.SetTile h c.1 c.2.1 c.2.2).bind (fun h1 => SetTiles w h1 cs)

end EDWorld

/-- The tile that `SetTile bBloc x y` stores in `w`. -/
def setTileResult (w : EDWorld) (bBloc : Bool) (x y : Int) : EDTile :=
  { Kind := if bBloc then EDKindBlocker else EDKindPlain, X := x, Y := y, W := w }

/-- The heap after the listed `SetTile` calls on a new world made in the empty heap
(the empty heap when the run faults, which it never does). -/
def builtHeap (calls : List (Bool × Int × Int)) : Heap :=
  (((NewEDWorld []).1.SetTiles (NewEDWorld []).2 calls).getD [])

/-- The world made by `NewEDWorld` in the empty heap. -/
def firstWorld : EDWorld := (NewEDWorld []).1

/-- A heap whose only world holds one river tile, at (2,3). -/
def riverHeap : Heap :=
  [GoMap.set GoMap.empty 2 (GoMap.set GoMap.empty 3 ⟨EDKindRiver, 2, 3, ⟨0⟩⟩)]

/-- What one offset contributes to the result of `PathNeighbors`. -/
def EDTile.probe (t : EDTile) (h : Heap) (o : Int × Int) : Option EDTile :=
  (t.W.EDTile h (t.X + o.1) (t.Y + o.2)).filter (fun n => decide (n.Kind ≠ EDKindBlocker))

/-! ## Interface values, routes and the distance query -/

/-- Modelled from the spec: the interface type `Pather` (the node capability of
the search), declared outside `eightDirPath.go`.  A value holds a `*EDTile`,
`nil` or not, or has another dynamic type (the `nil` interface included). -/
inductive Pather where
  /-- Dynamic type `*EDTile`; `none` is the `nil` pointer. -/
  | tile (p : Option EDTile)
  /-- Any other dynamic type, or the `nil` interface. -/
  | other

/-- Method `EDTile.PathNeighborCost` as called through the interface: `none` is
a run-time fault (the type assertion `to.(*EDTile)` fails, or the asserted
pointer is `nil`); otherwise the body runs to its `return`. -/
def EDTile.PathNeighborCostCall (t : EDTile) (toP : Pather) : Option ℚ :=
  match toP with
  | Pather.other => none
  | Pather.tile none => none
  | Pather.tile (some toT) => some (t.PathNeighborCost toT)

/-- A chain of the neighbour relation: every tile but the first is an element of
`PathNeighbors()` of the tile before it. -/
def isRoute (h : Heap) : List EDTile → Bool
  | [] => true
  | [_] => true
  | a :: b :: rest => decide (b ∈ a.PathNeighbors h) && isRoute h (b :: rest)

/-- Accumulated `PathNeighborCost` along consecutive pairs of a chain. -/
def routeCost : List EDTile → ℚ
  | [] => 0
  | [_] => 0
  | a :: b :: rest => a.PathNeighborCost b + routeCost (b :: rest)

/-- Modelled from the spec: the search function `Path(from, to)` is defined
outside `eightDirPath.go`; it returns `(path, distance, found)`.  Its contract,
as far as the found flag goes: `found` is false when no route exists, a route
being a chain of the neighbour relation that starts at the start tile and holds
a tile at the point of the goal. -/
def PathContract (path : Heap → EDTile → EDTile → List EDTile × ℚ × Bool) : Prop :=
  ∀ (h : Heap) (fromT toT : EDTile),
    (¬ ∃ l : List EDTile, l.head? = some fromT ∧ isRoute h l = true ∧
        ∃ t ∈ l, t.BSamePoint toT = true) →
      (path h fromT toT).2.2 = false

/-- Method `EDWorld.Distance`, over the search function it delegates to (the
trace line printed first is left out). -/
def EDWorld.Distance
    (path : Heap → Astar.EDTile → Astar.EDTile → List Astar.EDTile × ℚ × Bool)
    (w : EDWorld) (h : Heap) (fromx fromy tox toy : Int) : ℚ × Bool :=
  let fromT : Astar.EDTile := { Kind := EDKindPlain, X := fromx, Y := fromy, W := w }
  let toT : Astar.EDTile := { Kind := EDKindPlain, X := tox, Y := toy, W := w }
  let r := path h fromT toT
  (r.2.1, r.2.2)

/-- A search of bounded depth along the neighbour relation: is a tile at the
point of `goal` within `n` steps of `cur`? -/
def searchDepth (h : Heap) (goal : EDTile) : Nat → EDTile → Bool
  | 0, cur => cur.BSamePoint goal
  | n + 1, cur => cur.BSamePoint goal || (cur.PathNeighbors h).any (searchDepth h goal n)

/-- A search function built on `searchDepth`, reporting the found flag only; it
meets `PathContract`. -/
def depthPath (n : Nat) : Heap → EDTile → EDTile → List EDTile × ℚ × Bool :=
  fun h fromT toT => ([], 0, searchDepth h toT n fromT)

/-- The calls placing a blocker on each of the eight coordinates around (0,0). -/
def ringCalls : List (Bool × Int × Int) :=
  [(true, -1, -1), (true, -1, 0), (true, -1, 1), (true, 0, -1), (true, 0, 1),
   (true, 1, -1), (true, 1, 0), (true, 1, 1)]

/-- The calls building a world with a plain tile at (0,0), a blocker on each of
the eight coordinates around it, and plain tiles at (2,0) and (3,0). -/
def enclosedCalls : List (Bool × Int × Int) :=
  ringCalls ++ [(false, 0, 0), (false, 2, 0), (false, 3, 0)]

/-- A heap whose only world stores one plain tile object under two keys, (-1,1)
and (1,0). -/
def aliasHeap : Heap :=
  [GoMap.set (GoMap.set GoMap.empty (-1) (GoMap.set GoMap.empty 1 ⟨EDKindPlain, -1, 1, ⟨0⟩⟩))
    1 (GoMap.set GoMap.empty 0 ⟨EDKindPlain, -1, 1, ⟨0⟩⟩)]

/-! ## Lemmas on the neighbour loop -/

namespace EDTile

theorem pathNeighborsStep_eq (t : EDTile) (h : Heap) (acc : List EDTile) (o : Int × Int) :
    pathNeighborsStep t h acc o = acc ++ (probe t h o).toList := by
  unfold pathNeighborsStep probe
  cases hp : t.W.EDTile h (t.X + o.1) (t.Y + o.2) with
  | none => simp
  | some n =>
    by_cases hk : n.Kind = EDKindBlocker
    · simp [Option.filter, hk]
    · simp [Option.filter, hk]

theorem foldl_pathNeighborsStep (t : EDTile) (h : Heap) (l : List (Int × Int))
    (acc : List EDTile) :
    l.foldl (pathNeighborsStep t h) acc = acc ++ l.filterMap (probe t h) := by
  induction l generalizing acc with
  | nil => simp
  | cons o l ih =>
    rw [List.foldl_cons, ih, pathNeighborsStep_eq, List.filterMap_cons]
    cases hp : probe t h o with
    | none => simp
    | some n => simp

theorem PathNeighbors_eq_filterMap (t : EDTile) (h : Heap) :
    t.PathNeighbors h = pathOffsets.filterMap (probe t h) := by
  unfold PathNeighbors
  rw [foldl_pathNeighborsStep]
  simp

theorem probe_eq_some (t : EDTile) (h : Heap) (o : Int × Int) (n : EDTile) :
    probe t h o = some n ↔
      t.W.EDTile h (t.X + o.1) (t.Y + o.2) = some n ∧ n.Kind ≠ EDKindBlocker := by
  unfold probe
  cases hp : t.W.EDTile h (t.X + o.1) (t.Y + o.2) with
  | none => simp
  | some m =>
    by_cases hk : m.Kind = EDKindBlocker
    · simp only [Option.filter, hk]
      constructor
      · intro hc; simp at hc
      · rintro ⟨hm, hn⟩
        cases hm
        exact absurd hk hn
    · simp only [Option.filter, hk]
      constructor
      · intro hc
        simp at hc
        obtain ⟨_, hmn⟩ := hc
        subst hmn
        exact ⟨rfl, hk⟩
      · rintro ⟨hm, _⟩
        cases hm
        simp [hk]

theorem mem_PathNeighbors (t : EDTile) (h : Heap) (n : EDTile) :
    n ∈ t.PathNeighbors h ↔
      ∃ o ∈ pathOffsets,
        t.W.EDTile h (t.X + o.1) (t.Y + o.2) = some n ∧ n.Kind ≠ EDKindBlocker := by
  rw [PathNeighbors_eq_filterMap, List.mem_filterMap]
  constructor
  · rintro ⟨o, ho, hp⟩
    exact ⟨o, ho, (probe_eq_some t h o n).1 hp⟩
  · rintro ⟨o, ho, hp⟩
    exact ⟨o, ho, (probe_eq_some t h o n).2 hp⟩

end EDTile

theorem length_filterMap_probe_le (t : EDTile) (h : Heap) (l : List (Int × Int)) :
    (l.filterMap (EDTile.probe t h)).length ≤
      (l.filter (fun o => (t.W.EDTile h (t.X + o.1) (t.Y + o.2)).isSome)).length := by
  induction l with
  | nil => simp
  | cons o l ih =>
    cases hp : t.W.EDTile h (t.X + o.1) (t.Y + o.2) with
    | none =>
      have hn : EDTile.probe t h o = none := by simp [EDTile.probe, hp]
      simp [List.filterMap_cons, hn, List.filter_cons, hp, ih]
    | some m =>
      simp only [List.filter_cons, hp, Option.isSome_some, if_true, List.length_cons]
      rw [List.filterMap_cons]
      cases hq : EDTile.probe t h o with
      | none => simp only []; omega
      | some n => simp only [List.length_cons]; omega

theorem mem_pathOffsets_iff (dx dy : Int) :
    (dx, dy) ∈ EDTile.pathOffsets ↔
      |dx| ≤ 1 ∧ |dy| ≤ 1 ∧ (dx, dy) ≠ (0, 0) ∧ (dx, dy) ≠ (-1, -1) := by
  constructor
  · intro ho
    simp only [EDTile.pathOffsets, List.mem_cons, List.mem_singleton, Prod.mk.injEq] at ho
    rcases ho with ⟨rfl, rfl⟩ | ⟨rfl, rfl⟩ | ⟨rfl, rfl⟩ | ⟨rfl, rfl⟩ | ⟨rfl, rfl⟩ |
      ⟨rfl, rfl⟩ | ⟨rfl, rfl⟩ | ⟨rfl, rfl⟩ | ho
    all_goals first | decide | (simp at ho)
  · rintro ⟨hx, hy, h0, h1⟩
    rw [abs_le] at hx hy
    obtain ⟨hx1, hx2⟩ := hx
    obtain ⟨hy1, hy2⟩ := hy
    have hxc : dx = -1 ∨ dx = 0 ∨ dx = 1 := by omega
    have hyc : dy = -1 ∨ dy = 0 ∨ dy = 1 := by omega
    rcases hxc with rfl | rfl | rfl <;> rcases hyc with rfl | rfl | rfl <;>
      first | (exact absurd rfl h0) | (exact absurd rfl h1) | decide

theorem PathNeighbors_of_listed_offset (h : Heap) (t n : EDTile) (dx dy : Int)
    (ho : (dx, dy) ∈ EDTile.pathOffsets)
    (hs : t.W.EDTile h (t.X + dx) (t.Y + dy) = some n) (hk : n.Kind ≠ EDKindBlocker) :
    n ∈ t.PathNeighbors h :=
  (EDTile.mem_PathNeighbors t h n).2 ⟨(dx, dy), ho, hs, hk⟩

/-! ## The neighbour enumeration -/

/-- C1: for every heap and every tile `t` (stored in its world or not), no
element of `t.PathNeighbors()` has kind `EDKindBlocker`. -/
theorem PathNeighbors_no_blocker (h : Heap) (t n : EDTile)
    (hn : n ∈ t.PathNeighbors h) : n.Kind ≠ EDKindBlocker := by
  obtain ⟨_, _, _, hk⟩ := (EDTile.mem_PathNeighbors t h n).1 hn
  exact hk

/-- C1 at a world holding a plain tile at (1,0) and a blocker at (0,1): the plain
tile is a neighbour of the unstored tile at (0,0), and it is no blocker. -/
theorem PathNeighbors_no_blocker_witness :
    setTileResult firstWorld false 1 0 ∈
        EDTile.PathNeighbors ⟨EDKindPlain, 0, 0, firstWorld⟩
          (builtHeap [(false, 1, 0), (true, 0, 1)]) ∧
      (setTileResult firstWorld false 1 0).Kind ≠ EDKindBlocker :=
  ⟨by decide,
   PathNeighbors_no_blocker (builtHeap [(false, 1, 0), (true, 0, 1)])
     ⟨EDKindPlain, 0, 0, firstWorld⟩ (setTileResult firstWorld false 1 0) (by decide)⟩

/-- C2: every element of `t.PathNeighbors()` is the tile stored in the world of
`t` at a coordinate adjacent to `t`; a probed coordinate with no stored tile
leaves the loop state as it is, so the result is never longer than the number of
probed coordinates holding a tile.  The enumeration is a total function: the
`nil` check precedes every read of a probed tile. -/
theorem PathNeighbors_stored_adjacent (h : Heap) (t : EDTile) :
    (∀ n ∈ t.PathNeighbors h, ∃ dx dy : Int, |dx| ≤ 1 ∧ |dy| ≤ 1 ∧ (dx, dy) ≠ (0, 0) ∧
        t.W.EDTile h (t.X + dx) (t.Y + dy) = some n) ∧
    (∀ (acc : List EDTile) (o : Int × Int),
        t.W.EDTile h (t.X + o.1) (t.Y + o.2) = none →
          EDTile.pathNeighborsStep t h acc o = acc) ∧
    (t.PathNeighbors h).length ≤
      (EDTile.pathOffsets.filter
        (fun o => (t.W.EDTile h (t.X + o.1) (t.Y + o.2)).isSome)).length := by
  refine ⟨?_, ?_, ?_⟩
  · intro n hn
    obtain ⟨o, ho, hs, _⟩ := (EDTile.mem_PathNeighbors t h n).1 hn
    refine ⟨o.1, o.2, ?_, ?_, ?_, hs⟩
    · simp only [EDTile.pathOffsets, List.mem_cons, List.mem_singleton] at ho
      rcases ho with rfl | rfl | rfl | rfl | rfl | rfl | rfl | rfl | ho <;>
        first | decide | (simp at ho)
    · simp only [EDTile.pathOffsets, List.mem_cons, List.mem_singleton] at ho
      rcases ho with rfl | rfl | rfl | rfl | rfl | rfl | rfl | rfl | ho <;>
        first | decide | (simp at ho)
    · simp only [EDTile.pathOffsets, List.mem_cons, List.mem_singleton] at ho
      rcases ho with rfl | rfl | rfl | rfl | rfl | rfl | rfl | rfl | ho <;>
        first | decide | (simp at ho)
  · intro acc o ho
    simp [EDTile.pathNeighborsStep, ho]
  · rw [EDTile.PathNeighbors_eq_filterMap]
    exact length_filterMap_probe_le t h EDTile.pathOffsets

/-- C2 at a world holding a plain tile at (1,0) and a blocker at (0,1): the
neighbour of the tile at (0,0) is the tile stored at an adjacent coordinate. -/
theorem PathNeighbors_stored_adjacent_witness :
    setTileResult firstWorld false 1 0 ∈
        EDTile.PathNeighbors ⟨EDKindPlain, 0, 0, firstWorld⟩
          (builtHeap [(false, 1, 0), (true, 0, 1)]) ∧
      ∃ dx dy : Int, |dx| ≤ 1 ∧ |dy| ≤ 1 ∧ (dx, dy) ≠ (0, 0) ∧
        firstWorld.EDTile (builtHeap [(false, 1, 0), (true, 0, 1)]) (0 + dx) (0 + dy) =
          some (setTileResult firstWorld false 1 0) :=
  ⟨by decide,
   (PathNeighbors_stored_adjacent (builtHeap [(false, 1, 0), (true, 0, 1)])
      ⟨EDKindPlain, 0, 0, firstWorld⟩).1 _ (by decide)⟩

/-- C3 at the failing input: a world whose only tile is a plain tile at (-1,-1).
The lookup at offset (-1,-1) from the tile at (0,0) finds that tile, which is no
blocker, yet `PathNeighbors` returns the empty list. -/
theorem PathNeighbors_misses_diagonal :
    firstWorld.EDTile (builtHeap [(false, -1, -1)]) (0 + -1) (0 + -1) =
        some (setTileResult firstWorld false (-1) (-1)) ∧
      (setTileResult firstWorld false (-1) (-1)).Kind ≠ EDKindBlocker ∧
      EDTile.PathNeighbors ⟨EDKindPlain, 0, 0, firstWorld⟩ (builtHeap [(false, -1, -1)]) = [] := by
  decide

/-! ## Costs, estimate and identity -/

theorem EDKindCosts_plain : EDKindCosts EDKindPlain = some 1 := by
  simp [EDKindCosts, GoMap.ofList, EDKindPlain]

theorem EDKindCosts_river : EDKindCosts EDKindRiver = some 2 := by
  simp [EDKindCosts, GoMap.ofList, EDKindPlain, EDKindRiver]

theorem EDKindCosts_mountain : EDKindCosts EDKindMountain = some 3 := by
  simp [EDKindCosts, GoMap.ofList, EDKindPlain, EDKindRiver, EDKindMountain]

theorem wrapInt_eq (i : Int) :
    wrapInt i = (i + 9223372036854775808) % 18446744073709551616 - 9223372036854775808 := by
  unfold wrapInt
  norm_num

theorem wrapInt_of_abs_lt (d : Int) (hd : |d| < 2 ^ 63) : wrapInt d = d := by
  rw [abs_lt] at hd
  rw [wrapInt_eq]
  norm_num at hd
  omega

theorem wrapAbs_eq_abs (d : Int) (hd : |d| < 2 ^ 63) : wrapAbs d = |d| := by
  have hw := wrapInt_of_abs_lt d hd
  unfold wrapAbs
  rw [hw]
  by_cases h0 : d < 0
  · rw [if_pos h0, abs_of_neg h0]
    apply wrapInt_of_abs_lt
    rwa [abs_neg]
  · rw [if_neg h0, abs_of_nonneg (not_lt.1 h0)]

theorem wrapAbs_neg (d : Int) : wrapAbs (-d) = wrapAbs d := by
  unfold wrapAbs
  simp only [wrapInt_eq]
  split_ifs <;> omega

theorem PathNeighborCost_eq_wrap (a b : EDTile) :
    a.PathNeighborCost b =
      if wrapAbs (a.X - b.X) = 1 ∧ wrapAbs (a.Y - b.Y) = 1 then
        (EDKindCosts b.Kind).getD 0 * (1414 / 1000)
      else (EDKindCosts b.Kind).getD 0 := by
  simp only [EDTile.PathNeighborCost, wrapAbs]

theorem PathNeighborCost_eq (a b : EDTile)
    (hx : |a.X - b.X| < 2 ^ 63) (hy : |a.Y - b.Y| < 2 ^ 63) :
    a.PathNeighborCost b =
      if |a.X - b.X| = 1 ∧ |a.Y - b.Y| = 1 then (EDKindCosts b.Kind).getD 0 * (1414 / 1000)
      else (EDKindCosts b.Kind).getD 0 := by
  rw [PathNeighborCost_eq_wrap, wrapAbs_eq_abs _ hx, wrapAbs_eq_abs _ hy]

theorem PathEstimatedCost_eq_wrap (a b : EDTile) :
    a.PathEstimatedCost b =
      ((wrapInt (wrapAbs (b.X - a.X) + wrapAbs (b.Y - a.Y)) : Int) : ℚ) := by
  simp only [EDTile.PathEstimatedCost, wrapAbs]

/-- C4: for orthogonally adjacent tiles `a`, `b` with `b` plain, river or
mountain, `a.PathNeighborCost(b)` is the table cost of the kind of `b`, that is
1, 2 or 3, whatever the kind of `a`. -/
theorem PathNeighborCost_orthogonal (a b : EDTile)
    (hadj : (|a.X - b.X| = 1 ∧ a.Y - b.Y = 0) ∨ (a.X - b.X = 0 ∧ |a.Y - b.Y| = 1))
    (hk : b.Kind = EDKindPlain ∨ b.Kind = EDKindRiver ∨ b.Kind = EDKindMountain) :
    EDKindCosts b.Kind = some (a.PathNeighborCost b) ∧
      a.PathNeighborCost b =
        (if b.Kind = EDKindPlain then 1 else if b.Kind = EDKindRiver then 2 else 3) := by
  have hnd : ¬ (|a.X - b.X| = 1 ∧ |a.Y - b.Y| = 1) := by
    rintro ⟨hx, hy⟩
    rcases hadj with ⟨_, h0⟩ | ⟨h0, _⟩
    · rw [h0] at hy; simp at hy
    · rw [h0] at hx; simp at hx
  have hbx : |a.X - b.X| < 2 ^ 63 := by
    rcases hadj with ⟨h1, _⟩ | ⟨h0, _⟩
    · rw [h1]; norm_num
    · rw [h0]; norm_num
  have hby : |a.Y - b.Y| < 2 ^ 63 := by
    rcases hadj with ⟨_, h0⟩ | ⟨_, h1⟩
    · rw [h0]; norm_num
    · rw [h1]; norm_num
  rw [PathNeighborCost_eq a b hbx hby, if_neg hnd]
  rcases hk with hk | hk | hk
  · rw [hk, EDKindCosts_plain]; simp
  · rw [hk, EDKindCosts_river]; simp [EDKindRiver, EDKindPlain]
  · rw [hk, EDKindCosts_mountain]; simp [EDKindRiver, EDKindPlain, EDKindMountain]

/-- C4, scenario B: a plain tile at (0,0) and a mountain tile at (1,0) give 3. -/
theorem PathNeighborCost_orthogonal_witness :
    EDTile.PathNeighborCost ⟨EDKindPlain, 0, 0, firstWorld⟩
      ⟨EDKindMountain, 1, 0, firstWorld⟩ = 3 := by
  have h := (PathNeighborCost_orthogonal ⟨EDKindPlain, 0, 0, firstWorld⟩
    ⟨EDKindMountain, 1, 0, firstWorld⟩ (Or.inl (by decide)) (Or.inr (Or.inr rfl))).2
  simpa [EDKindPlain, EDKindRiver, EDKindMountain] using h

/-- C5: for diagonally adjacent tiles `a`, `b` (delta of absolute value 1 on both
axes) with `b` plain, river or mountain, `a.PathNeighborCost(b)` is the table
cost of the kind of `b` multiplied by 1414/1000. -/
theorem PathNeighborCost_diagonal (a b : EDTile)
    (hadj : |a.X - b.X| = 1 ∧ |a.Y - b.Y| = 1)
    (hk : b.Kind = EDKindPlain ∨ b.Kind = EDKindRiver ∨ b.Kind = EDKindMountain) :
    (∃ c : ℚ, EDKindCosts b.Kind = some c ∧ a.PathNeighborCost b = c * (1414 / 1000)) ∧
      a.PathNeighborCost b =
        (if b.Kind = EDKindPlain then 1 else if b.Kind = EDKindRiver then 2 else 3) *
          (1414 / 1000) := by
  have hbx : |a.X - b.X| < 2 ^ 63 := by rw [hadj.1]; norm_num
  have hby : |a.Y - b.Y| < 2 ^ 63 := by rw [hadj.2]; norm_num
  rw [PathNeighborCost_eq a b hbx hby, if_pos hadj]
  rcases hk with hk | hk | hk
  · rw [hk, EDKindCosts_plain]; simp
  · rw [hk, EDKindCosts_river]; simp [EDKindRiver, EDKindPlain]
  · rw [hk, EDKindCosts_mountain]; simp [EDKindRiver, EDKindPlain, EDKindMountain]

/-- C5, scenario C: a plain tile at (0,0) and a river tile at (1,1) give 2.828. -/
theorem PathNeighborCost_diagonal_witness :
    EDTile.PathNeighborCost ⟨EDKindPlain, 0, 0, firstWorld⟩
      ⟨EDKindRiver, 1, 1, firstWorld⟩ = 2828 / 1000 := by
  have h := (PathNeighborCost_diagonal ⟨EDKindPlain, 0, 0, firstWorld⟩
    ⟨EDKindRiver, 1, 1, firstWorld⟩ (by decide) (Or.inr (Or.inl rfl))).2
  rw [h]
  norm_num [EDKindPlain, EDKindRiver]

theorem PathEstimatedCost_min_int :
    EDTile.PathEstimatedCost ⟨EDKindPlain, 0, 0, firstWorld⟩
      ⟨EDKindPlain, -9223372036854775808, 0, firstWorld⟩ = -9223372036854775808 := by
  rw [PathEstimatedCost_eq_wrap]
  have h : wrapInt (wrapAbs (-9223372036854775808 - 0) + wrapAbs (0 - 0)) =
      -9223372036854775808 := by decide
  simp only [h]
  norm_num

/-- C6, refuted as stated: the equality with `|a.X - b.X| + |a.Y - b.Y|` does not
hold for every pair of tiles.  From (0,0) to (-2^63, 0) the difference and its
negation wrap, and the call returns -2^63, not 2^63. -/
theorem PathEstimatedCost_manhattan_refuted :
    ¬ (∀ a b : EDTile, a.PathEstimatedCost b = ((|a.X - b.X| + |a.Y - b.Y| : Int) : ℚ)) := by
  intro hall
  have hc := hall ⟨EDKindPlain, 0, 0, firstWorld⟩
    ⟨EDKindPlain, -9223372036854775808, 0, firstWorld⟩
  rw [PathEstimatedCost_min_int] at hc
  norm_num at hc

/-- C6, amended: for every pair of tiles (any kinds, any worlds) with
`|a.X - b.X| + |a.Y - b.Y| ≤ 2^53`, within which no integer operation wraps and
the conversion to `float64` is exact, `a.PathEstimatedCost(b)` is
`|a.X - b.X| + |a.Y - b.Y|`; the estimate is symmetric for every pair of tiles;
from (0,0) to (3,4) it is 7. -/
theorem PathEstimatedCost_manhattan :
    (∀ a b : EDTile, |a.X - b.X| + |a.Y - b.Y| ≤ 2 ^ 53 →
      a.PathEstimatedCost b = ((|a.X - b.X| + |a.Y - b.Y| : Int) : ℚ)) ∧
    (∀ a b : EDTile, a.PathEstimatedCost b = b.PathEstimatedCost a) ∧
    (∀ (k1 k2 : Int) (w1 w2 : EDWorld),
      EDTile.PathEstimatedCost ⟨k1, 0, 0, w1⟩ ⟨k2, 3, 4, w2⟩ = 7) := by
  have key : ∀ a b : EDTile, |a.X - b.X| + |a.Y - b.Y| ≤ 2 ^ 53 →
      a.PathEstimatedCost b = ((|a.X - b.X| + |a.Y - b.Y| : Int) : ℚ) := by
    intro a b hb
    have hx0 : 0 ≤ |a.X - b.X| := abs_nonneg _
    have hy0 : 0 ≤ |a.Y - b.Y| := abs_nonneg _
    have hbx : |b.X - a.X| < 2 ^ 63 := by
      rw [abs_sub_comm]; norm_num at hb ⊢; omega
    have hby : |b.Y - a.Y| < 2 ^ 63 := by
      rw [abs_sub_comm]; norm_num at hb ⊢; omega
    have hsum : |(|a.X - b.X| + |a.Y - b.Y|)| < 2 ^ 63 := by
      rw [abs_of_nonneg (add_nonneg hx0 hy0)]; norm_num at hb ⊢; omega
    rw [PathEstimatedCost_eq_wrap, wrapAbs_eq_abs _ hbx, wrapAbs_eq_abs _ hby,
      abs_sub_comm b.X a.X, abs_sub_comm b.Y a.Y, wrapInt_of_abs_lt _ hsum]
  refine ⟨key, ?_, ?_⟩
  · intro a b
    rw [PathEstimatedCost_eq_wrap, PathEstimatedCost_eq_wrap]
    have hx : wrapAbs (b.X - a.X) = wrapAbs (a.X - b.X) := by
      rw [← wrapAbs_neg (a.X - b.X), neg_sub]
    have hy : wrapAbs (b.Y - a.Y) = wrapAbs (a.Y - b.Y) := by
      rw [← wrapAbs_neg (a.Y - b.Y), neg_sub]
    rw [hx, hy]
  · intro k1 k2 w1 w2
    rw [key _ _ (by norm_num)]
    norm_num

/-- C6, amended, from (2,-1) to (-3,4): the distance 10 is within the bound and
the estimate is 10. -/
theorem PathEstimatedCost_manhattan_witness :
    EDTile.PathEstimatedCost ⟨EDKindPlain, 2, -1, firstWorld⟩
      ⟨EDKindRiver, -3, 4, firstWorld⟩ = 10 := by
  have h := PathEstimatedCost_manhattan.1 ⟨EDKindPlain, 2, -1, firstWorld⟩
    ⟨EDKindRiver, -3, 4, firstWorld⟩ (by norm_num)
  rw [h]
  norm_num

/-- C7: `a.BSamePoint(b)` holds exactly when both coordinates agree; replacing
the kind or the world reference of either tile does not change the result. -/
theorem BSamePoint_iff :
    (∀ a b : EDTile, a.BSamePoint b = true ↔ a.X = b.X ∧ a.Y = b.Y) ∧
    (∀ (a b : EDTile) (k1 k2 : Int) (w1 w2 : EDWorld),
      EDTile.BSamePoint { a with Kind := k1, W := w1 } { b with Kind := k2, W := w2 } =
        a.BSamePoint b) := by
  constructor
  · intro a b
    simp [EDTile.BSamePoint]
  · intro a b k1 k2 w1 w2
    rfl

/-! ## The world: lookup and update -/

theorem EDTile_eq_bind (w : EDWorld) (h : Heap) (x y : Int) :
    w.EDTile h x y = (h.grid w).bind (fun g => (g x).bind (fun row => row y)) := by
  unfold EDWorld.EDTile
  cases h.grid w with
  | none => rfl
  | some g =>
    cases hx : g x with
    | none => simp [hx]
    | some row => simp [hx]

theorem SetTile_of_grid (w : EDWorld) (h : Heap) (b : Bool) (x y : Int) (g : Grid)
    (hg : h.grid w = some g) :
    w.SetTile h b x y =
      some (h.set w.ref
        (GoMap.set g x (GoMap.set ((g x).getD GoMap.empty) y (setTileResult w b x y)))) := by
  unfold EDWorld.SetTile
  simp only [hg]
  cases hx : g x with
  | none =>
    have h1 : (GoMap.set g x (GoMap.empty : GoMap Int EDTile)) x = some GoMap.empty := by
      simp [GoMap.set]
    have h2 : ∀ r : GoMap Int EDTile,
        GoMap.set (GoMap.set g x (GoMap.empty : GoMap Int EDTile)) x r = GoMap.set g x r := by
      intro r
      funext k
      by_cases hk : k = x
      · simp [GoMap.set, hk]
      · simp [GoMap.set, hk]
    simp only [Option.isNone_none, if_true, h1, h2, Option.getD_none, setTileResult]
  | some row =>
    simp [hx, setTileResult]

theorem grid_set (w : EDWorld) (h : Heap) (g g1 : Grid) (hg : h.grid w = some g) :
    Heap.grid (h.set w.ref g1) w = some g1 := by
  unfold Heap.grid at *
  have hlt : w.ref < h.length := by
    by_contra hc
    rw [List.getElem?_eq_none (not_lt.1 hc)] at hg
    cases hg
  simp [List.getElem?_set, hlt]

theorem SetTile_lookup (w : EDWorld) (h : Heap) (b : Bool) (x y : Int) (g : Grid)
    (hg : h.grid w = some g) :
    ∃ h1, w.SetTile h b x y = some h1 ∧ (∃ g1, h1.grid w = some g1) ∧
      ∀ x1 y1 : Int, w.EDTile h1 x1 y1 =
        if x1 = x ∧ y1 = y then some (setTileResult w b x y) else w.EDTile h x1 y1 := by
  refine ⟨_, SetTile_of_grid w h b x y g hg, ⟨_, grid_set w h g _ hg⟩, ?_⟩
  intro x1 y1
  rw [EDTile_eq_bind, EDTile_eq_bind, grid_set w h g _ hg, hg]
  simp only [Option.some_bind, GoMap.set]
  by_cases hx : x1 = x
  · subst hx
    by_cases hy : y1 = y
    · subst hy
      simp [GoMap.set]
    · cases hr : g x1 with
      | none => simp [hy, GoMap.empty, GoMap.set]
      | some row => simp [hy, GoMap.set]
  · simp [hx]

theorem SetTiles_append (w : EDWorld) (l1 l2 : List (Bool × Int × Int)) (h : Heap) :
    w.SetTiles h (l1 ++ l2) = (w.SetTiles h l1).bind (fun h1 => w.SetTiles h1 l2) := by
  induction l1 generalizing h with
  | nil => simp [EDWorld.SetTiles]
  | cons c cs ih =>
    simp only [List.cons_append, EDWorld.SetTiles]
    cases hc : w.SetTile h c.1 c.2.1 c.2.2 with
    | none => simp
    | some h1 => simp [ih]

theorem SetTiles_frame (w : EDWorld) (cs : List (Bool × Int × Int)) (h : Heap) (g : Grid)
    (hg : h.grid w = some g) :
    ∃ h1, w.SetTiles h cs = some h1 ∧ (∃ g1, h1.grid w = some g1) ∧
      ∀ x y : Int, (∀ c ∈ cs, ¬ (c.2.1 = x ∧ c.2.2 = y)) →
        w.EDTile h1 x y = w.EDTile h x y := by
  induction cs generalizing h g with
  | nil => exact ⟨h, rfl, ⟨g, hg⟩, fun _ _ _ => rfl⟩
  | cons c cs ih =>
    obtain ⟨h1, hset, ⟨g1, hg1⟩, hlook⟩ := SetTile_lookup w h c.1 c.2.1 c.2.2 g hg
    obtain ⟨h2, hrun, hg2, hfr⟩ := ih h1 g1 hg1
    refine ⟨h2, ?_, hg2, ?_⟩
    · simp [EDWorld.SetTiles, hset, hrun]
    · intro x y hno
      rw [hfr x y (fun c1 hc1 => hno c1 (List.mem_cons_of_mem _ hc1)), hlook x y]
      have hc := hno c (List.mem_cons_self _ _)
      rw [if_neg]
      rintro ⟨rfl, rfl⟩
      exact hc ⟨rfl, rfl⟩

theorem grid_NewEDWorld (h : Heap) :
    (NewEDWorld h).2.grid (NewEDWorld h).1 = some GoMap.empty := by
  simp [NewEDWorld, Heap.grid]

theorem EDTile_NewEDWorld (h : Heap) (x y : Int) :
    (NewEDWorld h).1.EDTile (NewEDWorld h).2 x y = none := by
  rw [EDTile_eq_bind, grid_NewEDWorld]
  rfl

/-- C8: on every allocated world, whatever it holds at `(x, y)`, the call
`w.SetTile(b, x, y)` returns and `w.EDTile(x, y)` is then a present tile with
`X = x`, `Y = y`, world `w`, and kind blocker if `b` is true, plain otherwise. -/
theorem SetTile_then_EDTile (h : Heap) (w : EDWorld) (b : Bool) (x y : Int)
    (hw : (h.grid w).isSome = true) :
    ∃ h1 n, w.SetTile h b x y = some h1 ∧ w.EDTile h1 x y = some n ∧
      n.X = x ∧ n.Y = y ∧ n.W = w ∧
      (b = true → n.Kind = EDKindBlocker) ∧ (b = false → n.Kind = EDKindPlain) := by
  obtain ⟨g, hg⟩ := Option.isSome_iff_exists.1 hw
  obtain ⟨h1, hset, _, hlook⟩ := SetTile_lookup w h b x y g hg
  refine ⟨h1, setTileResult w b x y, hset, ?_, rfl, rfl, rfl, ?_, ?_⟩
  · rw [hlook x y]; simp
  · intro hb; simp [setTileResult, hb]
  · intro hb; simp [setTileResult, hb]

/-- C8 on a world holding a river tile at (2,3): after `SetTile(true, 2, 3)` the
lookup at (2,3) is a blocker. -/
theorem SetTile_then_EDTile_witness :
    firstWorld.EDTile riverHeap 2 3 = some ⟨EDKindRiver, 2, 3, firstWorld⟩ ∧
      ∃ h1 n, firstWorld.SetTile riverHeap true 2 3 = some h1 ∧
        firstWorld.EDTile h1 2 3 = some n ∧ n.X = 2 ∧ n.Y = 3 ∧ n.W = firstWorld ∧
        ((true : Bool) = true → n.Kind = EDKindBlocker) ∧
        ((true : Bool) = false → n.Kind = EDKindPlain) :=
  ⟨by decide, SetTile_then_EDTile riverHeap firstWorld true 2 3 (by decide)⟩

/-- C9: every finite sequence of `SetTile` calls on a new world runs to the end,
and afterwards `EDTile(x, y)` is absent when no call aimed at `(x, y)` and is the
tile of the last call aimed at `(x, y)` otherwise.  The new world is empty
everywhere, and one more `SetTile` leaves the lookup at every other coordinate
(same `x` included) as it was. -/
theorem SetTiles_last_write_wins (h : Heap) (calls : List (Bool × Int × Int)) :
    ∃ h1, (NewEDWorld h).1.SetTiles (NewEDWorld h).2 calls = some h1 ∧
      (∀ x y : Int, (∀ c ∈ calls, ¬ (c.2.1 = x ∧ c.2.2 = y)) →
        (NewEDWorld h).1.EDTile h1 x y = none) ∧
      (∀ (pre post : List (Bool × Int × Int)) (b : Bool) (x y : Int),
        calls = pre ++ (b, x, y) :: post → (∀ c ∈ post, ¬ (c.2.1 = x ∧ c.2.2 = y)) →
        (NewEDWorld h).1.EDTile h1 x y =
          some ⟨if b = true then EDKindBlocker else EDKindPlain, x, y, (NewEDWorld h).1⟩) ∧
      (∀ x y : Int, (NewEDWorld h).1.EDTile (NewEDWorld h).2 x y = none) ∧
      (∀ (b : Bool) (x y : Int), ∃ h2, (NewEDWorld h).1.SetTile h1 b x y = some h2 ∧
        ∀ x1 y1 : Int, (x1 ≠ x ∨ y1 ≠ y) →
          (NewEDWorld h).1.EDTile h2 x1 y1 = (NewEDWorld h).1.EDTile h1 x1 y1) := by
  obtain ⟨h1, hrun, ⟨g1, hg1⟩, hfr⟩ :=
    SetTiles_frame (NewEDWorld h).1 calls (NewEDWorld h).2 _ (grid_NewEDWorld h)
  refine ⟨h1, hrun, ?_, ?_, EDTile_NewEDWorld h, ?_⟩
  · intro x y hno
    rw [hfr x y hno, EDTile_NewEDWorld]
  · intro pre post b x y hcalls hpost
    subst hcalls
    obtain ⟨ha, hpre, ⟨ga, hga⟩, _⟩ :=
      SetTiles_frame (NewEDWorld h).1 pre (NewEDWorld h).2 _ (grid_NewEDWorld h)
    obtain ⟨hb, hset, ⟨gb, hgb⟩, hlook⟩ := SetTile_lookup (NewEDWorld h).1 ha b x y ga hga
    obtain ⟨hc, hpostrun, _, hfrc⟩ := SetTiles_frame (NewEDWorld h).1 post hb gb hgb
    have hall : (NewEDWorld h).1.SetTiles (NewEDWorld h).2 (pre ++ (b, x, y) :: post) =
        some hc := by
      rw [SetTiles_append, hpre]
      simp [EDWorld.SetTiles, hset, hpostrun]
    rw [hall] at hrun
    cases hrun
    rw [hfrc x y hpost, hlook x y]
    simp [setTileResult]
  · intro b x y
    obtain ⟨h2, hset, _, hlook⟩ := SetTile_lookup (NewEDWorld h).1 h1 b x y g1 hg1
    refine ⟨h2, hset, ?_⟩
    intro x1 y1 hne
    rw [hlook x1 y1, if_neg]
    rintro ⟨rfl, rfl⟩
    rcases hne with hne | hne <;> exact hne rfl

/-- C9 on the calls plain (1,1), blocker (1,1), plain (1,2): the lookup at (1,1)
is the blocker of the second call, and the lookup at (5,5) is absent. -/
theorem SetTiles_last_write_wins_witness :
    ∃ h1, firstWorld.SetTiles (NewEDWorld []).2
        [(false, 1, 1), (true, 1, 1), (false, 1, 2)] = some h1 ∧
      firstWorld.EDTile h1 1 1 = some ⟨EDKindBlocker, 1, 1, firstWorld⟩ ∧
      firstWorld.EDTile h1 5 5 = none := by
  obtain ⟨h1, hrun, habs, hlast, _, _⟩ :=
    SetTiles_last_write_wins [] [(false, 1, 1), (true, 1, 1), (false, 1, 2)]
  exact ⟨h1, hrun,
    hlast [(false, 1, 1)] [(false, 1, 2)] true 1 1 rfl (by decide),
    habs 5 5 (by decide)⟩

/-! ## The symbol tables -/

theorem EDRuneKinds_eq_some (r : rune) (k : Int) (h : EDRuneKinds r = some k) :
    (r = runeLit '.' ∧ k = EDKindPlain) ∨ (r = runeLit '~' ∧ k = EDKindRiver) ∨
      (r = runeLit 'M' ∧ k = EDKindMountain) ∨ (r = runeLit 'X' ∧ k = EDKindBlocker) := by
  unfold EDRuneKinds GoMap.ofList at h
  simp only [List.find?_cons, List.find?_nil] at h
  by_cases h1 : runeLit '.' = r
  · simp [h1] at h
    exact Or.inl ⟨h1.symm, h.symm⟩
  · by_cases h2 : runeLit '~' = r
    · simp [h1, h2] at h
      exact Or.inr (Or.inl ⟨h2.symm, h.symm⟩)
    · by_cases h3 : runeLit 'M' = r
      · simp [h1, h2, h3] at h
        exact Or.inr (Or.inr (Or.inl ⟨h3.symm, h.symm⟩))
      · by_cases h4 : runeLit 'X' = r
        · simp [h1, h2, h3, h4] at h
          exact Or.inr (Or.inr (Or.inr ⟨h4.symm, h.symm⟩))
        · simp [h1, h2, h3, h4] at h

/-- C10: for each of the kinds plain, river, mountain and blocker the output rune
is defined and the input table maps it back to the kind; every key `r` of
`EDRuneKinds` is the output rune of its kind; the five output runes are defined
and pairwise distinct. -/
theorem registry_round_trip :
    (∀ k : Int, k = EDKindPlain ∨ k = EDKindRiver ∨ k = EDKindMountain ∨ k = EDKindBlocker →
      ∃ r, EDKindRunes k = some r ∧ EDRuneKinds r = some k) ∧
    (∀ (r : rune) (k : Int), EDRuneKinds r = some k → EDKindRunes k = some r) ∧
    (∃ r0 r1 r2 r3 r4 : rune,
      EDKindRunes EDKindPlain = some r0 ∧ EDKindRunes EDKindRiver = some r1 ∧
      EDKindRunes EDKindMountain = some r2 ∧ EDKindRunes EDKindBlocker = some r3 ∧
      EDKindRunes EDKindPath = some r4 ∧ [r0, r1, r2, r3, r4].Nodup) := by
  refine ⟨?_, ?_, ?_⟩
  · rintro k (rfl | rfl | rfl | rfl)
    · exact ⟨runeLit '.', by decide, by decide⟩
    · exact ⟨runeLit '~', by decide, by decide⟩
    · exact ⟨runeLit 'M', by decide, by decide⟩
    · exact ⟨runeLit 'X', by decide, by decide⟩
  · intro r k h
    rcases EDRuneKinds_eq_some r k h with ⟨rfl, rfl⟩ | ⟨rfl, rfl⟩ | ⟨rfl, rfl⟩ | ⟨rfl, rfl⟩ <;>
      decide
  · exact ⟨runeLit '.', runeLit '~', runeLit 'M', runeLit 'X', runeLit '●',
      by decide, by decide, by decide, by decide, by decide, by decide⟩

/-- C10 at the mountain kind and at the rune `~`. -/
theorem registry_round_trip_witness :
    (∃ r, EDKindRunes EDKindMountain = some r ∧ EDRuneKinds r = some EDKindMountain) ∧
      EDKindRunes EDKindRiver = some (runeLit '~') :=
  ⟨registry_round_trip.1 EDKindMountain (Or.inr (Or.inr (Or.inl rfl))),
   registry_round_trip.2.1 (runeLit '~') EDKindRiver (by decide)⟩

theorem EDRuneKinds_eq_none (r : rune) (h1 : r ≠ runeLit '.') (h2 : r ≠ runeLit '~')
    (h3 : r ≠ runeLit 'M') (h4 : r ≠ runeLit 'X') : EDRuneKinds r = none := by
  cases hr : EDRuneKinds r with
  | none => rfl
  | some k =>
    rcases EDRuneKinds_eq_some r k hr with ⟨h, _⟩ | ⟨h, _⟩ | ⟨h, _⟩ | ⟨h, _⟩
    · exact absurd h h1
    · exact absurd h h2
    · exact absurd h h3
    · exact absurd h h4

/-- C11: `EDRuneKinds` is defined for exactly the runes `.`, `~`, `M`, `X`, which
it maps to plain, river, mountain and blocker; the lookup of every other rune,
the route marker included, is absent; no rune maps to `EDKindPath`. -/
theorem EDRuneKinds_domain :
    (∀ r : rune, (EDRuneKinds r).isSome = true ↔
      (r = runeLit '.' ∨ r = runeLit '~' ∨ r = runeLit 'M' ∨ r = runeLit 'X')) ∧
    EDRuneKinds (runeLit '.') = some EDKindPlain ∧
    EDRuneKinds (runeLit '~') = some EDKindRiver ∧
    EDRuneKinds (runeLit 'M') = some EDKindMountain ∧
    EDRuneKinds (runeLit 'X') = some EDKindBlocker ∧
    (∀ r : rune, r ≠ runeLit '.' → r ≠ runeLit '~' → r ≠ runeLit 'M' → r ≠ runeLit 'X' →
      EDRuneKinds r = none) ∧
    EDRuneKinds (runeLit '●') = none ∧
    (∀ r : rune, EDRuneKinds r ≠ some EDKindPath) := by
  refine ⟨?_, by decide, by decide, by decide, by decide, EDRuneKinds_eq_none, by decide, ?_⟩
  · intro r
    constructor
    · intro hs
      obtain ⟨k, hk⟩ := Option.isSome_iff_exists.1 hs
      rcases EDRuneKinds_eq_some r k hk with ⟨h, _⟩ | ⟨h, _⟩ | ⟨h, _⟩ | ⟨h, _⟩
      · exact Or.inl h
      · exact Or.inr (Or.inl h)
      · exact Or.inr (Or.inr (Or.inl h))
      · exact Or.inr (Or.inr (Or.inr h))
    · rintro (rfl | rfl | rfl | rfl) <;> decide
  · intro r hr
    rcases EDRuneKinds_eq_some r EDKindPath hr with ⟨_, h⟩ | ⟨_, h⟩ | ⟨_, h⟩ | ⟨_, h⟩ <;>
      exact absurd h (by decide)

/-- C11 at the rune `a`, which is none of the four input runes: its lookup is
absent. -/
theorem EDRuneKinds_domain_witness :
    runeLit 'a' ≠ runeLit '.' ∧ EDRuneKinds (runeLit 'a') = none :=
  ⟨by decide,
   EDRuneKinds_domain.2.2.2.2.2.1 (runeLit 'a') (by decide) (by decide) (by decide)
     (by decide)⟩

theorem EDKindCosts_eq_none (k : Int) (h0 : k ≠ EDKindPlain) (h1 : k ≠ EDKindRiver)
    (h2 : k ≠ EDKindMountain) : EDKindCosts k = none := by
  have e0 : ¬ EDKindPlain = k := fun e => h0 e.symm
  have e1 : ¬ EDKindRiver = k := fun e => h1 e.symm
  have e2 : ¬ EDKindMountain = k := fun e => h2 e.symm
  simp [EDKindCosts, GoMap.ofList, List.find?_cons, e0, e1, e2]

/-- C12: `EDKindCosts` maps plain to 1, river to 2 and mountain to 3; it has no
entry for blocker, for the route marker, or for any other kind. -/
theorem EDKindCosts_table :
    EDKindCosts EDKindPlain = some 1 ∧ EDKindCosts EDKindRiver = some 2 ∧
    EDKindCosts EDKindMountain = some 3 ∧
    EDKindCosts EDKindBlocker = none ∧ EDKindCosts EDKindPath = none ∧
    (∀ k : Int, (EDKindCosts k).isSome = true ↔
      (k = EDKindPlain ∨ k = EDKindRiver ∨ k = EDKindMountain)) := by
  refine ⟨EDKindCosts_plain, EDKindCosts_river, EDKindCosts_mountain,
    EDKindCosts_eq_none _ (by decide) (by decide) (by decide),
    EDKindCosts_eq_none _ (by decide) (by decide) (by decide), ?_⟩
  intro k
  constructor
  · intro hs
    by_contra hc
    push_neg at hc
    rw [EDKindCosts_eq_none k hc.1 hc.2.1 hc.2.2] at hs
    exact absurd hs (by decide)
  · rintro (rfl | rfl | rfl)
    · rw [EDKindCosts_plain]; rfl
    · rw [EDKindCosts_river]; rfl
    · rw [EDKindCosts_mountain]; rfl

/-! ## Costs outside the contract of the search -/

theorem EDKindCosts_getD_cases (k : Int) :
    (EDKindCosts k).getD 0 = 0 ∨ (EDKindCosts k).getD 0 = 1 ∨
      (EDKindCosts k).getD 0 = 2 ∨ (EDKindCosts k).getD 0 = 3 := by
  by_cases h0 : k = EDKindPlain
  · rw [h0, EDKindCosts_plain]; simp
  · by_cases h1 : k = EDKindRiver
    · rw [h1, EDKindCosts_river]; simp
    · by_cases h2 : k = EDKindMountain
      · rw [h2, EDKindCosts_mountain]; simp
      · rw [EDKindCosts_eq_none k h0 h1 h2]; simp

/-- C13, refuted as stated: it is not the case that `PathNeighborCost` faults on
every pair of tiles that are not adjacent; from (0,0) to the plain tile at (5,5)
it returns 1. -/
theorem PathNeighborCost_nonadjacent_fault_refuted :
    ¬ (∀ a b : EDTile,
        ((a.X = b.X ∧ a.Y = b.Y) ∨ 1 < |a.X - b.X| ∨ 1 < |a.Y - b.Y|) →
          a.PathNeighborCostCall (Pather.tile (some b)) = none) := by
  intro hall
  have hc := hall ⟨EDKindPlain, 0, 0, firstWorld⟩ ⟨EDKindPlain, 5, 5, firstWorld⟩
    (Or.inr (Or.inl (by decide)))
  simp [EDTile.PathNeighborCostCall] at hc

theorem PathNeighborCost_wraps :
    EDTile.PathNeighborCost ⟨EDKindPlain, -9223372036854775808, 0, firstWorld⟩
      ⟨EDKindPlain, 9223372036854775807, 1, firstWorld⟩ = 1414 / 1000 := by
  rw [PathNeighborCost_eq_wrap]
  have hx : wrapAbs (-9223372036854775808 - 9223372036854775807) = 1 := by decide
  have hy : wrapAbs (0 - 1) = 1 := by decide
  have hk : EDKindCosts EDKindPlain = some 1 := EDKindCosts_plain
  simp only [hx, hy, hk]
  norm_num

/-- C13, amended: for every pair of tiles that are not adjacent (same point, or
a delta above 1 on some axis) `a.PathNeighborCost(b)` does not fault; it returns
the table cost of the kind of `b` (zero for a kind without entry), unmultiplied
whenever the two coordinate deltas are below 2^63 in absolute value, so that
no integer operation wraps. -/
theorem PathNeighborCost_nonadjacent (a b : EDTile)
    (hna : (a.X = b.X ∧ a.Y = b.Y) ∨ 1 < |a.X - b.X| ∨ 1 < |a.Y - b.Y|) :
    (∃ c : ℚ, a.PathNeighborCostCall (Pather.tile (some b)) = some c ∧
      (c = (EDKindCosts b.Kind).getD 0 ∨
        c = (EDKindCosts b.Kind).getD 0 * (1414 / 1000))) ∧
    (|a.X - b.X| < 2 ^ 63 → |a.Y - b.Y| < 2 ^ 63 →
      a.PathNeighborCostCall (Pather.tile (some b)) =
        some ((EDKindCosts b.Kind).getD 0)) := by
  constructor
  · refine ⟨a.PathNeighborCost b, rfl, ?_⟩
    rw [PathNeighborCost_eq_wrap]
    split_ifs
    · exact Or.inr rfl
    · exact Or.inl rfl
  · intro hbx hby
    have hnd : ¬ (|a.X - b.X| = 1 ∧ |a.Y - b.Y| = 1) := by
      rintro ⟨hx, hy⟩
      rcases hna with ⟨h0, _⟩ | h1 | h1
      · rw [h0] at hx; simp at hx
      · omega
      · omega
    simp only [EDTile.PathNeighborCostCall]
    rw [PathNeighborCost_eq a b hbx hby, if_neg hnd]

/-- C13, amended, from the plain tile at (0,0) to the mountain tile at (5,5): the
call returns 3. -/
theorem PathNeighborCost_nonadjacent_witness :
    EDTile.PathNeighborCostCall ⟨EDKindPlain, 0, 0, firstWorld⟩
      (Pather.tile (some ⟨EDKindMountain, 5, 5, firstWorld⟩)) = some 3 := by
  have h := (PathNeighborCost_nonadjacent ⟨EDKindPlain, 0, 0, firstWorld⟩
    ⟨EDKindMountain, 5, 5, firstWorld⟩ (Or.inr (Or.inl (by decide)))).2
    (by norm_num) (by norm_num)
  rw [h, EDKindCosts_mountain]
  rfl

/-- C14, refuted as stated: it is not the case that `PathNeighborCost` faults on
every adjacent tile of kind blocker or route marker; from (0,0) to the blocker at
(1,0) it returns 0. -/
theorem PathNeighborCost_blocker_fault_refuted :
    ¬ (∀ a b : EDTile,
        (|a.X - b.X| ≤ 1 ∧ |a.Y - b.Y| ≤ 1 ∧ ¬ (a.X = b.X ∧ a.Y = b.Y)) →
        (b.Kind = EDKindBlocker ∨ b.Kind = EDKindPath) →
          a.PathNeighborCostCall (Pather.tile (some b)) = none) := by
  intro hall
  have hc := hall ⟨EDKindPlain, 0, 0, firstWorld⟩ ⟨EDKindBlocker, 1, 0, firstWorld⟩
    (by decide) (Or.inl rfl)
  simp [EDTile.PathNeighborCostCall] at hc

/-- C14, amended: for every tile `a` and every adjacent tile `b` whose kind is
blocker or route marker, `a.PathNeighborCost(b)` does not fault; the missing
table entry reads as zero and the call returns 0. -/
theorem PathNeighborCost_blocker (a b : EDTile)
    (_hadj : |a.X - b.X| ≤ 1 ∧ |a.Y - b.Y| ≤ 1 ∧ ¬ (a.X = b.X ∧ a.Y = b.Y))
    (hk : b.Kind = EDKindBlocker ∨ b.Kind = EDKindPath) :
    a.PathNeighborCostCall (Pather.tile (some b)) = some 0 := by
  have hc : EDKindCosts b.Kind = none := by
    rcases hk with hk | hk <;> rw [hk] <;>
      exact EDKindCosts_eq_none _ (by decide) (by decide) (by decide)
  simp only [EDTile.PathNeighborCostCall]
  rw [PathNeighborCost_eq_wrap, hc]
  simp

/-- C14, amended, at the blocker diagonally next to (0,0): the call returns 0. -/
theorem PathNeighborCost_blocker_witness :
    (|(0 : Int) - 1| ≤ 1 ∧ |(0 : Int) - 1| ≤ 1) ∧
      EDTile.PathNeighborCostCall ⟨EDKindPlain, 0, 0, firstWorld⟩
        (Pather.tile (some ⟨EDKindBlocker, 1, 1, firstWorld⟩)) = some 0 :=
  ⟨by decide,
   PathNeighborCost_blocker ⟨EDKindPlain, 0, 0, firstWorld⟩ ⟨EDKindBlocker, 1, 1, firstWorld⟩
     (by decide) (Or.inl rfl)⟩

/-- C17: for every heap, every tile `t` and every element `n` of
`t.PathNeighbors()`, the call `t.PathNeighborCost(n)` returns, and its result is
non-negative and one of the seven numbers 0, 1, 2, 3, 1.414, 2.828, 4.242. -/
theorem PathNeighborCost_neighbor_nonneg (h : Heap) (t n : EDTile)
    (_hn : n ∈ t.PathNeighbors h) :
    t.PathNeighborCostCall (Pather.tile (some n)) = some (t.PathNeighborCost n) ∧
      0 ≤ t.PathNeighborCost n ∧
      t.PathNeighborCost n ∈
        ([0, 1, 2, 3, 1414 / 1000, 2828 / 1000, 4242 / 1000] : List ℚ) := by
  refine ⟨rfl, ?_, ?_⟩
  · rw [PathNeighborCost_eq_wrap]
    rcases EDKindCosts_getD_cases n.Kind with hc | hc | hc | hc <;> rw [hc] <;>
      split_ifs <;> norm_num
  · rw [PathNeighborCost_eq_wrap]
    rcases EDKindCosts_getD_cases n.Kind with hc | hc | hc | hc <;> rw [hc] <;>
      split_ifs <;> norm_num

/-- C17 at a world holding a plain tile at (1,0) and a blocker at (0,1): the cost
from (0,0) to its neighbour at (1,0) is non-negative. -/
theorem PathNeighborCost_neighbor_nonneg_witness :
    setTileResult firstWorld false 1 0 ∈
        EDTile.PathNeighbors ⟨EDKindPlain, 0, 0, firstWorld⟩
          (builtHeap [(false, 1, 0), (true, 0, 1)]) ∧
      0 ≤ EDTile.PathNeighborCost ⟨EDKindPlain, 0, 0, firstWorld⟩
        (setTileResult firstWorld false 1 0) :=
  ⟨by decide,
   (PathNeighborCost_neighbor_nonneg (builtHeap [(false, 1, 0), (true, 0, 1)])
      ⟨EDKindPlain, 0, 0, firstWorld⟩ (setTileResult firstWorld false 1 0) (by decide)).2.1⟩

/-! ## Routes -/

theorem SetTiles_builtHeap (calls : List (Bool × Int × Int)) :
    firstWorld.SetTiles (NewEDWorld []).2 calls = some (builtHeap calls) := by
  obtain ⟨h1, hrun, _, _⟩ :=
    SetTiles_frame (NewEDWorld []).1 calls (NewEDWorld []).2 _ (grid_NewEDWorld [])
  simp [builtHeap, firstWorld, hrun]

/-- C15: the estimate can exceed the step cost.  In the world built by
`SetTile(false,0,0)` and `SetTile(false,1,1)` the stored plain tile `b` at (1,1)
is an element of `PathNeighbors()` of the stored plain tile `a` at (0,0), the
estimate from `a` to `b` is 2 and the step cost is 1.414; so the one-step route
from `a` to `b` costs less than the estimate. -/
theorem PathEstimatedCost_overestimates :
    ∃ (calls : List (Bool × Int × Int)) (h1 : Heap) (a b : EDTile),
      firstWorld.SetTiles (NewEDWorld []).2 calls = some h1 ∧
      firstWorld.EDTile h1 a.X a.Y = some a ∧ firstWorld.EDTile h1 b.X b.Y = some b ∧
      a.Kind = EDKindPlain ∧ b.Kind = EDKindPlain ∧
      b ∈ a.PathNeighbors h1 ∧
      a.PathEstimatedCost b = 2 ∧ a.PathNeighborCost b = 1414 / 1000 ∧
      a.PathNeighborCost b < a.PathEstimatedCost b ∧
      isRoute h1 [a, b] = true ∧ routeCost [a, b] < a.PathEstimatedCost b := by
  have he : EDTile.PathEstimatedCost (setTileResult firstWorld false 0 0)
      (setTileResult firstWorld false 1 1) = 2 := by
    rw [PathEstimatedCost_eq_wrap]
    have h : wrapInt
        (wrapAbs ((setTileResult firstWorld false 1 1).X - (setTileResult firstWorld false 0 0).X) +
          wrapAbs ((setTileResult firstWorld false 1 1).Y -
            (setTileResult firstWorld false 0 0).Y)) = 2 := by decide
    rw [h]
    norm_num
  have hc : EDTile.PathNeighborCost (setTileResult firstWorld false 0 0)
      (setTileResult firstWorld false 1 1) = 1414 / 1000 := by
    rw [PathNeighborCost_eq _ _ (by norm_num [setTileResult]) (by norm_num [setTileResult])]
    have hk : (setTileResult firstWorld false 1 1).Kind = EDKindPlain := rfl
    rw [hk, EDKindCosts_plain]
    norm_num [setTileResult]
  refine ⟨[(false, 0, 0), (false, 1, 1)], builtHeap [(false, 0, 0), (false, 1, 1)],
    setTileResult firstWorld false 0 0, setTileResult firstWorld false 1 1,
    SetTiles_builtHeap _, by decide, by decide, rfl, rfl, by decide, he, hc, ?_, by decide, ?_⟩
  · rw [he, hc]; norm_num
  · simp only [routeCost]
    rw [he, hc]; norm_num

/-! ## Worlds built by `SetTile` -/

theorem SetTiles_stored (w : EDWorld) (calls : List (Bool × Int × Int)) (h : Heap) (g : Grid)
    (hg : h.grid w = some g)
    (hinv : ∀ (x y : Int) (n : EDTile), w.EDTile h x y = some n →
      ∃ b : Bool, n = setTileResult w b x y)
    (h1 : Heap) (hrun : w.SetTiles h calls = some h1) :
    ∀ (x y : Int) (n : EDTile), w.EDTile h1 x y = some n →
      ∃ b : Bool, n = setTileResult w b x y := by
  induction calls generalizing h g with
  | nil =>
    simp only [EDWorld.SetTiles, Option.some.injEq] at hrun
    subst hrun
    exact hinv
  | cons c cs ih =>
    obtain ⟨h2, hset, ⟨g2, hg2⟩, hlook⟩ := SetTile_lookup w h c.1 c.2.1 c.2.2 g hg
    simp only [EDWorld.SetTiles, hset, Option.some_bind] at hrun
    refine ih h2 g2 hg2 ?_ hrun
    intro x y n hn
    rw [hlook x y] at hn
    by_cases hxy : x = c.2.1 ∧ y = c.2.2
    · rw [if_pos hxy] at hn
      obtain ⟨hx, hy⟩ := hxy
      subst hx hy
      exact ⟨c.1, (Option.some.inj hn).symm⟩
    · rw [if_neg hxy] at hn
      exact hinv x y n hn

theorem NewEDWorld_stored (h0 : Heap) (calls : List (Bool × Int × Int)) (h1 : Heap)
    (hrun : (NewEDWorld h0).1.SetTiles (NewEDWorld h0).2 calls = some h1) :
    ∀ (x y : Int) (n : EDTile), (NewEDWorld h0).1.EDTile h1 x y = some n →
      ∃ b : Bool, n = setTileResult (NewEDWorld h0).1 b x y := by
  refine SetTiles_stored (NewEDWorld h0).1 calls (NewEDWorld h0).2 _ (grid_NewEDWorld h0)
    ?_ h1 hrun
  intro x y n hn
  rw [EDTile_NewEDWorld] at hn
  cases hn

theorem setTileResult_not_blocker (w : EDWorld) (b : Bool) (x y : Int)
    (hk : (setTileResult w b x y).Kind ≠ EDKindBlocker) :
    setTileResult w b x y = ⟨EDKindPlain, x, y, w⟩ := by
  cases b with
  | false => rfl
  | true => exact absurd rfl hk

theorem built_neighbor (h0 : Heap) (calls : List (Bool × Int × Int)) (h1 : Heap)
    (hrun : (NewEDWorld h0).1.SetTiles (NewEDWorld h0).2 calls = some h1)
    (t n : EDTile) (ht : t.W = (NewEDWorld h0).1) (hn : n ∈ t.PathNeighbors h1) :
    ∃ o ∈ EDTile.pathOffsets,
      (NewEDWorld h0).1.EDTile h1 (t.X + o.1) (t.Y + o.2) = some n ∧
      n = ⟨EDKindPlain, t.X + o.1, t.Y + o.2, (NewEDWorld h0).1⟩ := by
  obtain ⟨o, ho, hs, hk⟩ := (EDTile.mem_PathNeighbors t h1 n).1 hn
  rw [ht] at hs
  obtain ⟨b, hb⟩ := NewEDWorld_stored h0 calls h1 hrun _ _ n hs
  refine ⟨o, ho, hs, ?_⟩
  rw [hb] at hk ⊢
  exact setTileResult_not_blocker _ b _ _ hk

/-- C20: every sequence of `SetTile` calls on a new world runs to the end, and in
the world it builds every tile found under key `(x, y)` has `X = x`, `Y = y`,
kind plain or blocker, and `W` referring to that world.  Hence every element `n`
of `t.PathNeighbors()`, for a tile `t` of that world, is plain, lies orthogonally
or diagonally next to `t`, and costs exactly 1 in the first case and exactly
1.414 in the second. -/
theorem built_world_well_formed (h0 : Heap) (calls : List (Bool × Int × Int)) :
    ∃ h1, (NewEDWorld h0).1.SetTiles (NewEDWorld h0).2 calls = some h1 ∧
      (∀ (x y : Int) (n : EDTile), (NewEDWorld h0).1.EDTile h1 x y = some n →
        n.X = x ∧ n.Y = y ∧ (n.Kind = EDKindPlain ∨ n.Kind = EDKindBlocker) ∧
          n.W = (NewEDWorld h0).1) ∧
      (∀ t : EDTile, t.W = (NewEDWorld h0).1 → ∀ n ∈ t.PathNeighbors h1,
        n.Kind = EDKindPlain ∧
        (((|t.X - n.X| = 1 ∧ t.Y - n.Y = 0) ∨ (t.X - n.X = 0 ∧ |t.Y - n.Y| = 1)) ∨
          (|t.X - n.X| = 1 ∧ |t.Y - n.Y| = 1)) ∧
        (((|t.X - n.X| = 1 ∧ t.Y - n.Y = 0) ∨ (t.X - n.X = 0 ∧ |t.Y - n.Y| = 1)) →
          t.PathNeighborCost n = 1) ∧
        ((|t.X - n.X| = 1 ∧ |t.Y - n.Y| = 1) → t.PathNeighborCost n = 1414 / 1000)) := by
  obtain ⟨h1, hrun, _, _⟩ :=
    SetTiles_frame (NewEDWorld h0).1 calls (NewEDWorld h0).2 _ (grid_NewEDWorld h0)
  refine ⟨h1, hrun, ?_, ?_⟩
  · intro x y n hn
    obtain ⟨b, hb⟩ := NewEDWorld_stored h0 calls h1 hrun x y n hn
    subst hb
    refine ⟨rfl, rfl, ?_, rfl⟩
    cases b with
    | false => exact Or.inl rfl
    | true => exact Or.inr rfl
  · intro t ht n hn
    obtain ⟨o, ho, _, hno⟩ := built_neighbor h0 calls h1 hrun t n ht hn
    have hk : n.Kind = EDKindPlain := by rw [hno]
    have hx : t.X - n.X = -o.1 := by rw [hno]; simp
    have hy : t.Y - n.Y = -o.2 := by rw [hno]; simp
    have hcost : t.PathNeighborCost n =
        if |t.X - n.X| = 1 ∧ |t.Y - n.Y| = 1 then 1414 / 1000 else 1 := by
      obtain ⟨ho1, ho2, _, _⟩ := (mem_pathOffsets_iff o.1 o.2).1 ho
      have hbx : |t.X - n.X| < 2 ^ 63 := by
        rw [hx, abs_neg]; exact lt_of_le_of_lt ho1 (by norm_num)
      have hby : |t.Y - n.Y| < 2 ^ 63 := by
        rw [hy, abs_neg]; exact lt_of_le_of_lt ho2 (by norm_num)
      rw [PathNeighborCost_eq t n hbx hby, hk, EDKindCosts_plain]
      simp
    refine ⟨hk, ?_, ?_, ?_⟩
    · rw [hx, hy]
      simp only [EDTile.pathOffsets, List.mem_cons, List.mem_singleton] at ho
      rcases ho with rfl | rfl | rfl | rfl | rfl | rfl | rfl | rfl | ho <;>
        first | decide | (simp at ho)
    · intro horth
      rw [hcost, if_neg]
      rintro ⟨hdx, hdy⟩
      rcases horth with ⟨_, h0y⟩ | ⟨h0x, _⟩
      · rw [h0y] at hdy; simp at hdy
      · rw [h0x] at hdx; simp at hdx
    · intro hdiag
      rw [hcost, if_pos hdiag]

/-- C20 on the calls plain (0,0), plain (1,0), blocker (0,1), plain (1,1): the
run completes and the tile found under (0,1) has its own coordinates. -/
theorem built_world_well_formed_witness :
    ∃ h1, firstWorld.SetTiles (NewEDWorld []).2
        [(false, 0, 0), (false, 1, 0), (true, 0, 1), (false, 1, 1)] = some h1 ∧
      (∀ n : EDTile, firstWorld.EDTile h1 0 1 = some n →
        n.X = 0 ∧ n.Y = 1 ∧ (n.Kind = EDKindPlain ∨ n.Kind = EDKindBlocker) ∧
          n.W = firstWorld) ∧
      firstWorld.EDTile h1 0 1 = some (setTileResult firstWorld true 0 1) := by
  obtain ⟨h1, hrun, hwf, _⟩ :=
    built_world_well_formed [] [(false, 0, 0), (false, 1, 0), (true, 0, 1), (false, 1, 1)]
  refine ⟨h1, hrun, fun n hn => hwf 0 1 n hn, ?_⟩
  have hb := SetTiles_builtHeap [(false, 0, 0), (false, 1, 0), (true, 0, 1), (false, 1, 1)]
  have he : h1 = builtHeap [(false, 0, 0), (false, 1, 0), (true, 0, 1), (false, 1, 1)] :=
    Option.some.inj (hrun.symm.trans hb)
  rw [he]
  decide

/-! ## Shape of the neighbour relation -/

theorem neighbor_of_delta (h : Heap) (a b : EDTile) (dx dy : Int)
    (ho : (dx, dy) ∈ EDTile.pathOffsets) (hx : b.X = a.X + dx) (hy : b.Y = a.Y + dy)
    (hs : a.W.EDTile h b.X b.Y = some b) (hk : b.Kind ≠ EDKindBlocker) :
    b ∈ a.PathNeighbors h := by
  refine PathNeighbors_of_listed_offset h a b dx dy ho ?_ hk
  rw [← hx, ← hy]
  exact hs

/-- C19: the neighbour relation is not symmetric.  In the world built by
`SetTile(false,0,0)` and `SetTile(false,1,1)` the stored plain tile at (1,1) is
an element of `PathNeighbors()` of the stored plain tile at (0,0), but not the
other way round.  For every two tiles stored at their own coordinates in one
world, neither a blocker, that are orthogonally adjacent or diagonally adjacent
along the (1,-1)/(-1,1) direction, membership holds both ways. -/
theorem PathNeighbors_asymmetric :
    (∃ (calls : List (Bool × Int × Int)) (h1 : Heap) (a b : EDTile),
      firstWorld.SetTiles (NewEDWorld []).2 calls = some h1 ∧
      firstWorld.EDTile h1 a.X a.Y = some a ∧ firstWorld.EDTile h1 b.X b.Y = some b ∧
      a.Kind = EDKindPlain ∧ b.Kind = EDKindPlain ∧
      b ∈ a.PathNeighbors h1 ∧ a ∉ b.PathNeighbors h1) ∧
    (∀ (h : Heap) (a b : EDTile), a.W = b.W →
      a.W.EDTile h a.X a.Y = some a → b.W.EDTile h b.X b.Y = some b →
      a.Kind ≠ EDKindBlocker → b.Kind ≠ EDKindBlocker →
      ((|b.X - a.X| = 1 ∧ b.Y - a.Y = 0) ∨ (b.X - a.X = 0 ∧ |b.Y - a.Y| = 1) ∨
        (b.X - a.X = 1 ∧ b.Y - a.Y = -1) ∨ (b.X - a.X = -1 ∧ b.Y - a.Y = 1)) →
      b ∈ a.PathNeighbors h ∧ a ∈ b.PathNeighbors h) := by
  constructor
  · exact ⟨[(false, 0, 0), (false, 1, 1)], builtHeap [(false, 0, 0), (false, 1, 1)],
      setTileResult firstWorld false 0 0, setTileResult firstWorld false 1 1,
      SetTiles_builtHeap _, by decide, by decide, rfl, rfl, by decide, by decide⟩
  · intro h a b hw ha hb hka hkb hadj
    have hb1 : a.W.EDTile h b.X b.Y = some b := by rw [hw]; exact hb
    have ha1 : b.W.EDTile h a.X a.Y = some a := by rw [← hw]; exact ha
    rcases hadj with ⟨hx, hy⟩ | ⟨hx, hy⟩ | ⟨hx, hy⟩ | ⟨hx, hy⟩
    · rcases (abs_eq (by norm_num : (0 : Int) ≤ 1)).1 hx with hx1 | hx1
      · exact ⟨neighbor_of_delta h a b 1 0 (by decide) (by omega) (by omega) hb1 hkb,
          neighbor_of_delta h b a (-1) 0 (by decide) (by omega) (by omega) ha1 hka⟩
      · exact ⟨neighbor_of_delta h a b (-1) 0 (by decide) (by omega) (by omega) hb1 hkb,
          neighbor_of_delta h b a 1 0 (by decide) (by omega) (by omega) ha1 hka⟩
    · rcases (abs_eq (by norm_num : (0 : Int) ≤ 1)).1 hy with hy1 | hy1
      · exact ⟨neighbor_of_delta h a b 0 1 (by decide) (by omega) (by omega) hb1 hkb,
          neighbor_of_delta h b a 0 (-1) (by decide) (by omega) (by omega) ha1 hka⟩
      · exact ⟨neighbor_of_delta h a b 0 (-1) (by decide) (by omega) (by omega) hb1 hkb,
          neighbor_of_delta h b a 0 1 (by decide) (by omega) (by omega) ha1 hka⟩
    · exact ⟨neighbor_of_delta h a b 1 (-1) (by decide) (by omega) (by omega) hb1 hkb,
        neighbor_of_delta h b a (-1) 1 (by decide) (by omega) (by omega) ha1 hka⟩
    · exact ⟨neighbor_of_delta h a b (-1) 1 (by decide) (by omega) (by omega) hb1 hkb,
        neighbor_of_delta h b a 1 (-1) (by decide) (by omega) (by omega) ha1 hka⟩

/-- C19 in the world built by plain (0,0), plain (1,-1): the two stored tiles are
neighbours of each other. -/
theorem PathNeighbors_asymmetric_witness :
    setTileResult firstWorld false 1 (-1) ∈
        EDTile.PathNeighbors (setTileResult firstWorld false 0 0)
          (builtHeap [(false, 0, 0), (false, 1, -1)]) ∧
      setTileResult firstWorld false 0 0 ∈
        EDTile.PathNeighbors (setTileResult firstWorld false 1 (-1))
          (builtHeap [(false, 0, 0), (false, 1, -1)]) :=
  PathNeighbors_asymmetric.2 (builtHeap [(false, 0, 0), (false, 1, -1)])
    (setTileResult firstWorld false 0 0) (setTileResult firstWorld false 1 (-1))
    rfl (by decide) (by decide) (by decide) (by decide)
    (Or.inr (Or.inr (Or.inl (by decide))))

theorem count_filterMap_probe (t : EDTile) (h : Heap) (n : EDTile) (l : List (Int × Int)) :
    (l.filterMap (EDTile.probe t h)).count n =
      l.countP (fun o => decide (EDTile.probe t h o = some n)) := by
  induction l with
  | nil => simp
  | cons o l ih =>
    rw [List.filterMap_cons, List.countP_cons]
    cases hp : EDTile.probe t h o with
    | none => simp [ih]
    | some m =>
      by_cases hm : m = n
      · subst hm
        simp [ih]
      · have hm1 : ¬ (some m = some n) := fun e => hm (Option.some.inj e)
        simp [List.count_cons, ih, hm]

theorem count_PathNeighbors (t : EDTile) (h : Heap) (n : EDTile) :
    (t.PathNeighbors h).count n =
      EDTile.pathOffsets.countP (fun o => decide (EDTile.probe t h o = some n)) := by
  rw [EDTile.PathNeighbors_eq_filterMap, count_filterMap_probe]

theorem length_PathNeighbors_le (t : EDTile) (h : Heap) : (t.PathNeighbors h).length ≤ 8 := by
  rw [EDTile.PathNeighbors_eq_filterMap]
  exact (List.length_filterMap_le _ _).trans (by decide)

theorem probe_ne_some (t : EDTile) (h : Heap) (o : Int × Int) (n : EDTile)
    (hne : t.W.EDTile h (t.X + o.1) (t.Y + o.2) ≠ some n) : EDTile.probe t h o ≠ some n :=
  fun hp => hne ((EDTile.probe_eq_some t h o n).1 hp).1

theorem count_two_le (t : EDTile) (h : Heap) (n : EDTile)
    (hs : t.W.EDTile h (t.X - 1) (t.Y + 1) = some n) (hk : n.Kind ≠ EDKindBlocker) :
    2 ≤ (t.PathNeighbors h).count n := by
  have hp : EDTile.probe t h (-1, 1) = some n :=
    (EDTile.probe_eq_some t h (-1, 1) n).2 ⟨hs, hk⟩
  rw [count_PathNeighbors]
  simp only [EDTile.pathOffsets, List.countP_cons, List.countP_nil, hp, decide_True, if_true]
  omega

theorem count_eq_two (t : EDTile) (h : Heap) (n : EDTile)
    (hs : t.W.EDTile h (t.X - 1) (t.Y + 1) = some n) (hk : n.Kind ≠ EDKindBlocker)
    (hother : ∀ o ∈ EDTile.pathOffsets, o ≠ (-1, 1) →
      t.W.EDTile h (t.X + o.1) (t.Y + o.2) ≠ some n) :
    (t.PathNeighbors h).count n = 2 := by
  have hp : EDTile.probe t h (-1, 1) = some n :=
    (EDTile.probe_eq_some t h (-1, 1) n).2 ⟨hs, hk⟩
  have h1 := probe_ne_some t h (-1, 0) n (hother _ (by decide) (by decide))
  have h2 := probe_ne_some t h (1, 0) n (hother _ (by decide) (by decide))
  have h3 := probe_ne_some t h (0, -1) n (hother _ (by decide) (by decide))
  have h4 := probe_ne_some t h (0, 1) n (hother _ (by decide) (by decide))
  have h5 := probe_ne_some t h (1, 1) n (hother _ (by decide) (by decide))
  have h6 := probe_ne_some t h (1, -1) n (hother _ (by decide) (by decide))
  rw [count_PathNeighbors]
  simp only [EDTile.pathOffsets, List.countP_cons, List.countP_nil, hp, h1, h2, h3, h4, h5, h6,
    decide_True, decide_False, if_true]
  rfl

theorem built_lookup_coords (h0 : Heap) (calls : List (Bool × Int × Int)) (h1 : Heap)
    (hrun : (NewEDWorld h0).1.SetTiles (NewEDWorld h0).2 calls = some h1)
    (x y : Int) (n : EDTile) (hn : (NewEDWorld h0).1.EDTile h1 x y = some n) :
    n.X = x ∧ n.Y = y := by
  obtain ⟨b, hb⟩ := NewEDWorld_stored h0 calls h1 hrun x y n hn
  rw [hb]
  exact ⟨rfl, rfl⟩

/-- C18, refuted as stated: in a world storing one plain tile object under the
keys (-1,1) and (1,0), the present plain tile at (-1,1) occurs three times, not
twice, in `PathNeighbors()` of the tile at (0,0). -/
theorem PathNeighbors_twice_refuted :
    firstWorld.EDTile aliasHeap (0 - 1) (0 + 1) = some ⟨EDKindPlain, -1, 1, ⟨0⟩⟩ ∧
      (⟨EDKindPlain, -1, 1, ⟨0⟩⟩ : EDTile).Kind ≠ EDKindBlocker ∧
      (EDTile.PathNeighbors ⟨EDKindPlain, 0, 0, firstWorld⟩ aliasHeap).count
        ⟨EDKindPlain, -1, 1, ⟨0⟩⟩ = 3 ∧
      (EDTile.PathNeighbors ⟨EDKindPlain, 0, 0, firstWorld⟩ aliasHeap).count
        ⟨EDKindPlain, -1, 1, ⟨0⟩⟩ ≠ 2 := by
  decide

/-- C18, amended: the offset list holds (-1,1) twice and (-1,-1) never.  For
every heap and tile `t`: a tile is an element of `t.PathNeighbors()` only by
being stored at a probed coordinate, so the tile at `(t.X-1, t.Y-1)` is one only
when it is also stored at a probed coordinate; a present tile at
`(t.X-1, t.Y+1)` that is no blocker occurs at least twice, and exactly twice
when no other probed coordinate stores it; the result has at most 8 elements,
each stored at one of 7 distinct offsets.  In a world built by `SetTile` the
tile at `(t.X-1, t.Y-1)` is never an element and the one at `(t.X-1, t.Y+1)`
occurs exactly twice. -/
theorem PathNeighbors_offset_slip :
    ((-1, -1) ∉ EDTile.pathOffsets ∧ EDTile.pathOffsets.count (-1, 1) = 2 ∧
      EDTile.pathOffsets.length = 8 ∧ EDTile.pathOffsets.dedup.length = 7) ∧
    (∀ (h : Heap) (t : EDTile),
      (∀ n : EDTile, t.W.EDTile h (t.X - 1) (t.Y - 1) = some n → n ∈ t.PathNeighbors h →
        ∃ o ∈ EDTile.pathOffsets, o ≠ (-1, -1) ∧
          t.W.EDTile h (t.X + o.1) (t.Y + o.2) = some n) ∧
      (∀ n : EDTile, t.W.EDTile h (t.X - 1) (t.Y + 1) = some n → n.Kind ≠ EDKindBlocker →
        2 ≤ (t.PathNeighbors h).count n ∧
        ((∀ o ∈ EDTile.pathOffsets, o ≠ (-1, 1) →
            t.W.EDTile h (t.X + o.1) (t.Y + o.2) ≠ some n) →
          (t.PathNeighbors h).count n = 2)) ∧
      (t.PathNeighbors h).length ≤ 8 ∧
      (∀ n ∈ t.PathNeighbors h, ∃ o ∈ EDTile.pathOffsets.dedup,
        t.W.EDTile h (t.X + o.1) (t.Y + o.2) = some n)) ∧
    (∀ (h0 : Heap) (calls : List (Bool × Int × Int)) (h1 : Heap),
      (NewEDWorld h0).1.SetTiles (NewEDWorld h0).2 calls = some h1 →
      ∀ t : EDTile, t.W = (NewEDWorld h0).1 →
        (∀ n : EDTile, t.W.EDTile h1 (t.X - 1) (t.Y - 1) = some n →
          n ∉ t.PathNeighbors h1) ∧
        (∀ n : EDTile, t.W.EDTile h1 (t.X - 1) (t.Y + 1) = some n →
          n.Kind ≠ EDKindBlocker → (t.PathNeighbors h1).count n = 2)) := by
  refine ⟨⟨by decide, by decide, by decide, by decide⟩, ?_, ?_⟩
  · intro h t
    refine ⟨?_, ?_, length_PathNeighbors_le t h, ?_⟩
    · intro n _ hn
      obtain ⟨o, ho, hs, _⟩ := (EDTile.mem_PathNeighbors t h n).1 hn
      refine ⟨o, ho, ?_, hs⟩
      rintro rfl
      exact absurd ho (by decide)
    · intro n hs hk
      exact ⟨count_two_le t h n hs hk, count_eq_two t h n hs hk⟩
    · intro n hn
      obtain ⟨o, ho, hs, _⟩ := (EDTile.mem_PathNeighbors t h n).1 hn
      exact ⟨o, List.mem_dedup.2 ho, hs⟩
  · intro h0 calls h1 hrun t ht
    constructor
    · intro n hs hn
      rw [ht] at hs
      obtain ⟨hx, hy⟩ := built_lookup_coords h0 calls h1 hrun _ _ n hs
      obtain ⟨o, ho, hs2, _⟩ := built_neighbor h0 calls h1 hrun t n ht hn
      obtain ⟨hx2, hy2⟩ := built_lookup_coords h0 calls h1 hrun _ _ n hs2
      have h1o : o.1 = -1 := by omega
      have h2o : o.2 = -1 := by omega
      have : o = (-1, -1) := Prod.ext h1o h2o
      rw [this] at ho
      exact absurd ho (by decide)
    · intro n hs hk
      refine count_eq_two t h1 n hs hk ?_
      intro o _ hne hs2
      rw [ht] at hs hs2
      obtain ⟨hx, hy⟩ := built_lookup_coords h0 calls h1 hrun _ _ n hs
      obtain ⟨hx2, hy2⟩ := built_lookup_coords h0 calls h1 hrun _ _ n hs2
      have h1o : o.1 = -1 := by omega
      have h2o : o.2 = 1 := by omega
      exact hne (Prod.ext h1o h2o)

/-- C18, amended, in the world built by plain (-1,1), plain (-1,-1): seen from
(0,0) the tile at (-1,1) occurs twice and the tile at (-1,-1) not at all. -/
theorem PathNeighbors_offset_slip_witness :
    (EDTile.PathNeighbors ⟨EDKindPlain, 0, 0, firstWorld⟩
        (builtHeap [(false, -1, 1), (false, -1, -1)])).count
        (setTileResult firstWorld false (-1) 1) = 2 ∧
      setTileResult firstWorld false (-1) (-1) ∉
        EDTile.PathNeighbors ⟨EDKindPlain, 0, 0, firstWorld⟩
          (builtHeap [(false, -1, 1), (false, -1, -1)]) :=
  ⟨(PathNeighbors_offset_slip.2.2 [] [(false, -1, 1), (false, -1, -1)]
      (builtHeap [(false, -1, 1), (false, -1, -1)]) (SetTiles_builtHeap _)
      ⟨EDKindPlain, 0, 0, firstWorld⟩ rfl).2 (setTileResult firstWorld false (-1) 1)
      (by decide) (by decide),
   (PathNeighbors_offset_slip.2.2 [] [(false, -1, 1), (false, -1, -1)]
      (builtHeap [(false, -1, 1), (false, -1, -1)]) (SetTiles_builtHeap _)
      ⟨EDKindPlain, 0, 0, firstWorld⟩ rfl).1 (setTileResult firstWorld false (-1) (-1))
      (by decide)⟩

/-! ## The distance query and enclosed goals -/

theorem searchDepth_sound (h : Heap) (goal : EDTile) (n : Nat) :
    ∀ cur : EDTile, searchDepth h goal n cur = true →
      ∃ l : List EDTile, l.head? = some cur ∧ isRoute h l = true ∧
        ∃ t ∈ l, t.BSamePoint goal = true := by
  induction n with
  | zero =>
    intro cur hs
    exact ⟨[cur], rfl, rfl, cur, List.mem_singleton.2 rfl, hs⟩
  | succ n ih =>
    intro cur hs
    simp only [searchDepth, Bool.or_eq_true, List.any_eq_true] at hs
    rcases hs with hs | ⟨m, hm, hs⟩
    · exact ⟨[cur], rfl, rfl, cur, List.mem_singleton.2 rfl, hs⟩
    · obtain ⟨l, hl, hr, t, ht, hb⟩ := ih m hs
      cases l with
      | nil => cases hl
      | cons a rest =>
        simp only [List.head?_cons, Option.some.injEq] at hl
        subst hl
        refine ⟨cur :: a :: rest, rfl, ?_, t, List.mem_cons_of_mem _ ht, hb⟩
        simp [isRoute, hm, hr]

theorem depthPath_contract (n : Nat) : PathContract (depthPath n) := by
  intro h fromT toT hno
  cases hs : searchDepth h toT n fromT with
  | false => simp [depthPath, hs]
  | true => exact absurd (searchDepth_sound h toT n fromT hs) hno

theorem built_neighbor_outside (h0 : Heap) (calls : List (Bool × Int × Int)) (h1 : Heap)
    (hrun : (NewEDWorld h0).1.SetTiles (NewEDWorld h0).2 calls = some h1)
    (gx gy : Int)
    (hring : ∀ dx dy : Int, |dx| ≤ 1 → |dy| ≤ 1 → (dx, dy) ≠ (0, 0) →
      ∃ n : EDTile, (NewEDWorld h0).1.EDTile h1 (gx + dx) (gy + dy) = some n ∧
        n.Kind = EDKindBlocker)
    (t n : EDTile) (ht : t.W = (NewEDWorld h0).1)
    (hout : ¬ (|t.X - gx| ≤ 1 ∧ |t.Y - gy| ≤ 1)) (hn : n ∈ t.PathNeighbors h1) :
    n.W = (NewEDWorld h0).1 ∧ ¬ (|n.X - gx| ≤ 1 ∧ |n.Y - gy| ≤ 1) := by
  obtain ⟨o, ho, hs, hno⟩ := built_neighbor h0 calls h1 hrun t n ht hn
  have hX : n.X = t.X + o.1 := by rw [hno]
  have hY : n.Y = t.Y + o.2 := by rw [hno]
  have hK : n.Kind = EDKindPlain := by rw [hno]
  refine ⟨by rw [hno], ?_⟩
  rintro ⟨hnx, hny⟩
  by_cases hg : n.X - gx = 0 ∧ n.Y - gy = 0
  · obtain ⟨ho1, ho2, _, _⟩ := (mem_pathOffsets_iff o.1 o.2).1 ho
    apply hout
    rw [abs_le] at ho1 ho2 ⊢
    rw [abs_le]
    obtain ⟨hg1, hg2⟩ := hg
    refine ⟨⟨by omega, by omega⟩, ⟨by omega, by omega⟩⟩
  · have hne : (n.X - gx, n.Y - gy) ≠ (0, 0) := by
      intro he
      exact hg ⟨congrArg Prod.fst he, congrArg Prod.snd he⟩
    obtain ⟨m, hm, hmk⟩ := hring (n.X - gx) (n.Y - gy) hnx hny hne
    have e1 : gx + (n.X - gx) = t.X + o.1 := by omega
    have e2 : gy + (n.Y - gy) = t.Y + o.2 := by omega
    rw [e1, e2, hs] at hm
    have hmn : n = m := Option.some.inj hm
    rw [← hmn, hK] at hmk
    exact absurd hmk (by decide)

theorem built_route_outside (h0 : Heap) (calls : List (Bool × Int × Int)) (h1 : Heap)
    (hrun : (NewEDWorld h0).1.SetTiles (NewEDWorld h0).2 calls = some h1)
    (gx gy : Int)
    (hring : ∀ dx dy : Int, |dx| ≤ 1 → |dy| ≤ 1 → (dx, dy) ≠ (0, 0) →
      ∃ n : EDTile, (NewEDWorld h0).1.EDTile h1 (gx + dx) (gy + dy) = some n ∧
        n.Kind = EDKindBlocker)
    (l : List EDTile) :
    ∀ t0 : EDTile, t0.W = (NewEDWorld h0).1 → ¬ (|t0.X - gx| ≤ 1 ∧ |t0.Y - gy| ≤ 1) →
      l.head? = some t0 → isRoute h1 l = true →
      ∀ t ∈ l, ¬ (|t.X - gx| ≤ 1 ∧ |t.Y - gy| ≤ 1) := by
  induction l with
  | nil => intro _ _ _ _ _ t ht; cases ht
  | cons a rest ih =>
    intro t0 hw hout hhead hroute t ht
    simp only [List.head?_cons, Option.some.injEq] at hhead
    subst hhead
    rcases List.mem_cons.1 ht with rfl | hmem
    · exact hout
    · cases rest with
      | nil => cases hmem
      | cons b rest2 =>
        simp only [isRoute, Bool.and_eq_true, decide_eq_true_eq] at hroute
        obtain ⟨hb, hrest⟩ := hroute
        obtain ⟨hbw, hbout⟩ :=
          built_neighbor_outside h0 calls h1 hrun gx gy hring a b hw hout hb
        exact ih b hbw hbout rfl hrest t hmem

theorem enclosedCalls_ring (dx dy : Int) (hx : |dx| ≤ 1) (hy : |dy| ≤ 1)
    (hne : (dx, dy) ≠ (0, 0)) :
    ∃ n : EDTile, (NewEDWorld []).1.EDTile (builtHeap enclosedCalls) (0 + dx) (0 + dy) = some n ∧
      n.Kind = EDKindBlocker := by
  rw [abs_le] at hx hy
  obtain ⟨hx1, hx2⟩ := hx
  obtain ⟨hy1, hy2⟩ := hy
  have hxc : dx = -1 ∨ dx = 0 ∨ dx = 1 := by omega
  have hyc : dy = -1 ∨ dy = 0 ∨ dy = 1 := by omega
  rcases hxc with rfl | rfl | rfl <;> rcases hyc with rfl | rfl | rfl
  · exact ⟨setTileResult firstWorld true (-1) (-1), by decide, rfl⟩
  · exact ⟨setTileResult firstWorld true (-1) 0, by decide, rfl⟩
  · exact ⟨setTileResult firstWorld true (-1) 1, by decide, rfl⟩
  · exact ⟨setTileResult firstWorld true 0 (-1), by decide, rfl⟩
  · exact absurd rfl hne
  · exact ⟨setTileResult firstWorld true 0 1, by decide, rfl⟩
  · exact ⟨setTileResult firstWorld true 1 (-1), by decide, rfl⟩
  · exact ⟨setTileResult firstWorld true 1 0, by decide, rfl⟩
  · exact ⟨setTileResult firstWorld true 1 1, by decide, rfl⟩

/-- C16, refuted as stated: with a plain tile stored at the goal (0,0), a blocker
on each of the eight coordinates around it and the start at (1,0), the start
tile that `Distance` makes is plain whatever is stored at (1,0), and the chain
from it to the tile stored at (0,0) is a chain of the neighbour relation. -/
theorem enclosed_goal_reached_refuted :
    ¬ (∀ (h0 : Heap) (calls : List (Bool × Int × Int)) (h1 : Heap) (gx gy sx sy : Int),
        (NewEDWorld h0).1.SetTiles (NewEDWorld h0).2 calls = some h1 →
        (∀ dx dy : Int, |dx| ≤ 1 → |dy| ≤ 1 → (dx, dy) ≠ (0, 0) →
          ∃ n : EDTile, (NewEDWorld h0).1.EDTile h1 (gx + dx) (gy + dy) = some n ∧
            n.Kind = EDKindBlocker) →
        (sx, sy) ≠ (gx, gy) →
        ∀ l : List EDTile, l.head? = some ⟨EDKindPlain, sx, sy, (NewEDWorld h0).1⟩ →
          isRoute h1 l = true → ∀ t ∈ l, ¬ (t.X = gx ∧ t.Y = gy)) := by
  intro hall
  exact hall [] enclosedCalls (builtHeap enclosedCalls) 0 0 1 0 (SetTiles_builtHeap _)
    enclosedCalls_ring (by decide)
    [⟨EDKindPlain, 1, 0, firstWorld⟩, setTileResult firstWorld false 0 0] rfl (by decide)
    (setTileResult firstWorld false 0 0) (by decide) ⟨rfl, rfl⟩

/-- C16, amended: in every world built by `SetTile` in which the eight
coordinates around the goal `g` hold blockers, and for every start `s` that is
neither `g` nor one of those eight coordinates, no chain of the neighbour
relation from the plain start tile that `Distance` makes at `s` holds a tile at
`g`; hence `Distance(s, g)`, over any search function meeting the contract of
`Path`, returns found = false. -/
theorem Distance_enclosed_goal
    (path : Heap → EDTile → EDTile → List EDTile × ℚ × Bool) (hpath : PathContract path)
    (h0 : Heap) (calls : List (Bool × Int × Int)) (h1 : Heap)
    (hrun : (NewEDWorld h0).1.SetTiles (NewEDWorld h0).2 calls = some h1)
    (gx gy sx sy : Int)
    (hring : ∀ dx dy : Int, |dx| ≤ 1 → |dy| ≤ 1 → (dx, dy) ≠ (0, 0) →
      ∃ n : EDTile, (NewEDWorld h0).1.EDTile h1 (gx + dx) (gy + dy) = some n ∧
        n.Kind = EDKindBlocker)
    (hs : ¬ (|sx - gx| ≤ 1 ∧ |sy - gy| ≤ 1)) :
    (∀ l : List EDTile, l.head? = some ⟨EDKindPlain, sx, sy, (NewEDWorld h0).1⟩ →
      isRoute h1 l = true → ∀ t ∈ l, ¬ (t.X = gx ∧ t.Y = gy)) ∧
    ((NewEDWorld h0).1.Distance path h1 sx sy gx gy).2 = false := by
  have hchain : ∀ l : List EDTile,
      l.head? = some ⟨EDKindPlain, sx, sy, (NewEDWorld h0).1⟩ →
      isRoute h1 l = true → ∀ t ∈ l, ¬ (t.X = gx ∧ t.Y = gy) := by
    intro l hhead hroute t ht hat
    have hout := built_route_outside h0 calls h1 hrun gx gy hring l
      ⟨EDKindPlain, sx, sy, (NewEDWorld h0).1⟩ rfl hs hhead hroute t ht
    apply hout
    rw [hat.1, hat.2]
    simp
  refine ⟨hchain, ?_⟩
  unfold EDWorld.Distance
  apply hpath
  rintro ⟨l, hhead, hroute, t, ht, hb⟩
  refine hchain l hhead hroute t ht ?_
  simpa [EDTile.BSamePoint] using hb

/-- C16, amended, in the world of `enclosedCalls` with goal (0,0) and start
(3,0), over the depth-bounded search: found is false. -/
theorem Distance_enclosed_goal_witness :
    (firstWorld.Distance (depthPath 3) (builtHeap enclosedCalls) 3 0 0 0).2 = false :=
  (Distance_enclosed_goal (depthPath 3) (depthPath_contract 3) [] enclosedCalls
    (builtHeap enclosedCalls) (SetTiles_builtHeap _) 0 0 3 0 enclosedCalls_ring
    (by decide)).2

end Astar
